import Mathlib

/-!
Shallow embedding of the data-provider aggregation layer of the repository
(`DataProviderService` and `GhostfolioController`).

Conventions of the embedding:
* TypeScript objects with string keys become association lists
  `List (String × α)` whose insertion/update operation (`setKey`) mirrors
  JavaScript property assignment: an existing key keeps its position and gets
  the new value, a fresh key is appended.  `List.lookup` mirrors property read.
* JavaScript numbers that flow through `isNumber` checks are modelled as
  `Option Rat` (`none` is `undefined`/non-number after a JSON parse);
  `Big`-based arithmetic is exact, hence plain `Rat` multiplication.
* The promise pipeline of `getQuotes` is linearised: chunks are processed in
  the order their promises are created.  A callback that would throw
  (`new Big(undefined)`) makes the run return `Except.error ()`, matching the
  rejection of `Promise.all`.
* Functions of the repository that are outside the given sources
  (`isCurrency`, `isDerivedCurrency`, `getCurrencyFromSymbol`, the redis
  quote key, provider adapters, date helpers) are parameters of the
  environment record; theorems that need one of their properties take it as
  an explicit hypothesis.
-/

/-- One entry of the `DERIVED_CURRENCIES` configuration constant:
a synthetic currency, its conversion factor and its root currency. -/
structure DerivedCurrency where
  currency : String
  factor : Rat
  rootCurrency : String
deriving DecidableEq

/-- `AssetProfileIdentifier`: a `(dataSource, symbol)` pair. -/
structure AssetProfileIdentifier where
  dataSource : String
  symbol : String
deriving DecidableEq, BEq

/-- `IDataProviderResponse`: a quote as returned by a provider or parsed from
the redis cache.  `marketPrice` is `none` when the field is absent or not a
number. -/
structure IDataProviderResponse where
  currency : String
  dataSource : String
  marketPrice : Option Rat
  marketState : String
deriving DecidableEq

/-- A value stored in the redis cache under a quote key: either a JSON string
that parses back to a response object, or a non-empty string that fails
`JSON.parse` (the `catch {}` branch). -/
inductive CacheEntry where
  | parseable (r : IDataProviderResponse)
  | garbage
deriving DecidableEq

/-- One element of the `data` array passed to `marketDataService.updateMany`. -/
structure MarketDataUpdate where
  symbol : String
  dataSource : String
  date : String
  marketPrice : Option Rat
  state : String
deriving DecidableEq

/-- A recorded `redisCacheService.set` call: quote key `(dataSource, symbol)`,
the stringified response, and the configured time-to-live. -/
structure CacheWrite where
  dataSource : String
  symbol : String
  value : IDataProviderResponse
  ttl : Nat
deriving DecidableEq

/-- Environment of `DataProviderService.getQuotes`: configuration constants,
the redis cache content at call time, and the behaviour of the injected
provider adapters and helper functions that live outside the given sources. -/
structure QuoteEnv where
  DEFAULT_CURRENCY : String
  DERIVED_CURRENCIES : List DerivedCurrency
  exchangeRateDataSource : String
  cache : String → String → Option CacheEntry
  fetchQuotes : String → List String → List (String × IDataProviderResponse)
  isPremium : String → Bool
  maxNumberOfSymbolsPerRequest : String → Option Nat
  ENABLE_FEATURE_SUBSCRIPTION : Bool
  CACHE_QUOTES_TTL : Nat
  today : String
  isCurrency : String → Bool
  isDerivedCurrency : String → Bool
  getCurrencyFromSymbol : String → String
  updateManyFails : List MarketDataUpdate → Bool

/-- Observable state accumulated by one `getQuotes` run: the `response`
object, every cache write, every upstream `getQuotes` request and every
`updateMany` payload. -/
structure QuoteState where
  response : List (String × IDataProviderResponse)
  cacheWrites : List CacheWrite
  fetchCalls : List (String × List String)
  updateManyCalls : List (List MarketDataUpdate)
deriving DecidableEq

instance exceptDecEq {ε α : Type} [DecidableEq ε] [DecidableEq α] :
    DecidableEq (Except ε α) := fun x y =>
  match x, y with
  | Except.ok a, Except.ok b =>
    if h : a = b then Decidable.isTrue (by rw [h])
    else Decidable.isFalse (by intro he; cases he; exact h rfl)
  | Except.error e, Except.error f =>
    if h : e = f then Decidable.isTrue (by rw [h])
    else Decidable.isFalse (by intro he; cases he; exact h rfl)
  | Except.ok _, Except.error _ => Decidable.isFalse (by intro he; cases he)
  | Except.error _, Except.ok _ => Decidable.isFalse (by intro he; cases he)

/-- JavaScript property assignment on an object modelled as an association
list: update in place when the key exists, append otherwise. -/
def setKey {α : Type} : List (String × α) → String → α → List (String × α)
  | [], k, v => [(k, v)]
  | (k', v') :: rest, k, v =>
    if k' = k then (k, v) :: rest else (k', v') :: setKey rest k v

/-- The successful cache consultation for one item: `some r` exactly when
`useCache` holds, the quote key has a value, and that value parses. -/
def cacheHit (env : QuoteEnv) (useCache : Bool)
    (item : AssetProfileIdentifier) : Option IDataProviderResponse :=
  if useCache then
    match env.cache item.dataSource item.symbol with
    | some (CacheEntry.parseable r) => some r
    | _ => none
  else none

/-- One iteration of the cache loop: a hit is stored in the response, a miss
is pushed onto `itemsToFetch`. -/
def cacheStep (env : QuoteEnv) (useCache : Bool)
    (acc : List (String × IDataProviderResponse) × List AssetProfileIdentifier)
    (item : AssetProfileIdentifier) :
    List (String × IDataProviderResponse) × List AssetProfileIdentifier :=
  match cacheHit env useCache item with
  | some r => (setKey acc.1 item.symbol r, acc.2)
  | none => (acc.1, acc.2 ++ [item])

/-- The cache loop of `getQuotes` (lines 429-448). -/
def cachePhase (env : QuoteEnv) (useCache : Bool)
    (items : List AssetProfileIdentifier)
    (st : List (String × IDataProviderResponse)) :
    List (String × IDataProviderResponse) × List AssetProfileIdentifier :=
  items.foldl (cacheStep env useCache) (st, [])

/-- Helper of `dedupKeepFirst`: drop every element already seen. -/
def dedupAux {α : Type} [DecidableEq α] (seen : List α) : List α → List α
  | [] => []
  | a :: l => if a ∈ seen then dedupAux seen l else a :: dedupAux (a :: seen) l

/-- Deduplication keeping the first occurrence, as `lodash.uniqWith` does and
as JavaScript object keys do. -/
def dedupKeepFirst {α : Type} [DecidableEq α] (l : List α) : List α :=
  dedupAux [] l

/-- `lodash.groupBy` over `dataSource` followed by `Object.entries`: group
keys in order of first occurrence, each group in original order. -/
def groupByDataSource (items : List AssetProfileIdentifier) :
    List (String × List AssetProfileIdentifier) :=
  (dedupKeepFirst (items.map (fun it => it.dataSource))).map
    (fun ds => (ds, items.filter (fun it => it.dataSource == ds)))

/-- The symbol filter of `getQuotes` (lines 474-489): keep non-derived
currencies, drop symbols of premium providers for basic users when the
subscription feature is on, keep the rest. -/
def keepSymbol (env : QuoteEnv) (ds : String) (userIsBasic : Bool) (sym : String) :
    Bool :=
  if env.isCurrency (env.getCurrencyFromSymbol sym) then
    !(env.isDerivedCurrency (env.getCurrencyFromSymbol sym))
  else if env.isPremium ds && env.ENABLE_FEATURE_SUBSCRIPTION && userIsBasic then
    false
  else
    true

/-- Filter-then-map step producing the symbol list of one data-source group. -/
def filteredSymbols (env : QuoteEnv) (ds : String) (userIsBasic : Bool)
    (ids : List AssetProfileIdentifier) : List String :=
  (ids.filter (fun it => keepSymbol env ds userIsBasic it.symbol)).map
    (fun it => it.symbol)

/-- `Number.MAX_SAFE_INTEGER`, the fallback when a provider defines no
maximum number of symbols per request. -/
def maxSafeInteger : Nat := 2 ^ 53 - 1

/-- Fuel-indexed helper of `chunkList`; the fuel only forces termination and
is irrelevant as long as it bounds the list length (see
`chunkListFuel_congr`). -/
def chunkListFuel (m : Nat) : Nat → List String → List (List String)
  | _, [] => []
  | 0, _ :: _ => []
  | fuel + 1, x :: xs =>
    if m = 0 then []
    else (x :: xs).take m :: chunkListFuel m fuel ((x :: xs).drop m)

/-- The chunking loop `for (let i = 0; i < symbols.length; i += max)` of
lines 498-508.  The source loop does not terminate when a provider reported a
maximum of `0`; that case never arises and is mapped to no chunks. -/
def chunkList (m : Nat) (xs : List String) : List (List String) :=
  chunkListFuel m xs.length xs

/-- The skip list of lines 519-528: derived-currency pairs and the `USX`
pair, keyed from `DEFAULT_CURRENCY`. -/
def skipSymbols (env : QuoteEnv) : List String :=
  env.DERIVED_CURRENCIES.map (fun d => env.DEFAULT_CURRENCY ++ d.currency) ++
    [env.DEFAULT_CURRENCY ++ "USX"]

/-- The `updateMany` payload of lines 580-599: every symbol of the current
response whose market price is a number greater than zero and whose market
state is `open`, with today's UTC start date and state `INTRADAY`. -/
def updateManyData (env : QuoteEnv)
    (resp : List (String × IDataProviderResponse)) : List MarketDataUpdate :=
  (resp.filter
      (fun p =>
        match p.2.marketPrice with
        | some mp => decide (0 < mp) && (p.2.marketState == "open")
        | none => false)).map
    (fun p =>
      { symbol := p.1, dataSource := p.2.dataSource, date := env.today,
        marketPrice := p.2.marketPrice, state := "INTRADAY" })

/-- The synthetic quote of lines 547-556: the spread of the root entry with
the derived currency, the multiplied price and market state `open`. -/
def derivedQuote (d : DerivedCurrency) (resp : IDataProviderResponse)
    (p : Rat) : IDataProviderResponse :=
  { resp with
    currency := d.currency
    marketPrice := some (p * d.factor)
    marketState := "open" }

/-- One iteration of the derived-currency loop of lines 541-567 for the
provider result entry `(sym, resp)`: when `sym` is the root pair of `d`, add
and cache the synthetic derived entry.  `new Big(undefined)` throws, hence
the error cases when `result` holds no numeric price under the root pair. -/
def derivedStep (env : QuoteEnv) (ds : String)
    (result : List (String × IDataProviderResponse)) (sym : String)
    (resp : IDataProviderResponse) (st : QuoteState) (d : DerivedCurrency) :
    Except Unit QuoteState :=
  if sym = env.DEFAULT_CURRENCY ++ d.rootCurrency then
    match List.lookup (env.DEFAULT_CURRENCY ++ d.rootCurrency) result with
    | some rr =>
      match rr.marketPrice with
      | some p =>
        Except.ok
          { st with
            response := setKey st.response (env.DEFAULT_CURRENCY ++ d.currency)
              (derivedQuote d resp p)
            cacheWrites := st.cacheWrites ++
              [⟨ds, env.DEFAULT_CURRENCY ++ d.currency, derivedQuote d resp p,
                env.CACHE_QUOTES_TTL⟩] }
      | none => Except.error ()
    | none => Except.error ()
  else Except.ok st

/-- Derived-currency synthesis for one provider result entry
(lines 541-567). -/
def synthesizeDerived (env : QuoteEnv) (ds : String)
    (result : List (String × IDataProviderResponse)) (sym : String)
    (resp : IDataProviderResponse) (st : QuoteState) : Except Unit QuoteState :=
  env.DERIVED_CURRENCIES.foldlM (derivedStep env ds result sym resp) st

/-- Processing of one provider result entry (body of the loop of
lines 516-568): skip entries keyed by a derived pair or the `USX` pair,
store and cache the others, then synthesize derived currencies. -/
def entryStep (env : QuoteEnv) (ds : String)
    (result : List (String × IDataProviderResponse)) (st : QuoteState)
    (e : String × IDataProviderResponse) : Except Unit QuoteState :=
  if (skipSymbols env).contains e.1 then Except.ok st
  else
    let st' : QuoteState :=
      { st with
        response := setKey st.response e.1 e.2
        cacheWrites := st.cacheWrites ++
          [⟨ds, e.1, e.2, env.CACHE_QUOTES_TTL⟩] }
    synthesizeDerived env ds result e.1 e.2 st'

/-- Processing of the entries of one provider result (lines 516-568). -/
def processEntries (env : QuoteEnv) (ds : String)
    (result : List (String × IDataProviderResponse)) (st : QuoteState) :
    Except Unit QuoteState :=
  result.foldlM (entryStep env ds result) st

/-- One chunk of one data-source group: the upstream request, the entry
processing, and the `updateMany` call on the accumulated response; the
`try { ... } catch {}` around `updateMany` swallows its outcome, so
`env.updateManyFails` is never consulted. -/
def processChunk (env : QuoteEnv) (ds : String) (chunk : List String)
    (st : QuoteState) : Except Unit QuoteState :=
  match processEntries env ds (env.fetchQuotes ds chunk)
      { st with fetchCalls := st.fetchCalls ++ [(ds, chunk)] } with
  | Except.error e => Except.error e
  | Except.ok stm =>
    Except.ok
      { stm with
        updateManyCalls := stm.updateManyCalls ++
          [updateManyData env stm.response] }

/-- The chunk size of one data-source group: the provider's maximum, or
`Number.MAX_SAFE_INTEGER` when the provider defines none. -/
def maxFor (env : QuoteEnv) (ds : String) : Nat :=
  (env.maxNumberOfSymbolsPerRequest ds).getD maxSafeInteger

/-- One data-source group of `getQuotes`: filter the symbols, chunk them by
the provider's maximum, process every chunk. -/
def processDataSource (env : QuoteEnv) (userIsBasic : Bool)
    (group : String × List AssetProfileIdentifier) (st : QuoteState) :
    Except Unit QuoteState :=
  let symbols := filteredSymbols env group.1 userIsBasic group.2
  (chunkList (maxFor env group.1) symbols).foldlM
    (fun st c => processChunk env group.1 c st) st

/-- The fixed `USX` response synthesized before anything else
(lines 416-427). -/
def usxResponse (env : QuoteEnv) : IDataProviderResponse :=
  { currency := "USX", dataSource := env.exchangeRateDataSource,
    marketPrice := some 100, marketState := "open" }

/-- The response object right after the `USX` shortcut of lines 416-427. -/
def initialResponse (env : QuoteEnv) (items : List AssetProfileIdentifier) :
    List (String × IDataProviderResponse) :=
  if items.any (fun it => it.symbol == env.DEFAULT_CURRENCY ++ "USX") then
    [(env.DEFAULT_CURRENCY ++ "USX", usxResponse env)]
  else []

/-- The items pushed onto `itemsToFetch` by the cache loop. -/
def itemsToFetchOf (env : QuoteEnv) (useCache : Bool)
    (items : List AssetProfileIdentifier) : List AssetProfileIdentifier :=
  (cachePhase env useCache items (initialResponse env items)).2

/-- `DataProviderService.getQuotes` (lines 398-619), linearised: the `USX`
shortcut, the cache loop, then grouping, filtering, chunking and chunk
processing in order. -/
def getQuotes (env : QuoteEnv) (items : List AssetProfileIdentifier)
    (useCache userIsBasic : Bool) : Except Unit QuoteState :=
  let cacheRes := cachePhase env useCache items (initialResponse env items)
  let st0 : QuoteState :=
    { response := cacheRes.1, cacheWrites := [], fetchCalls := [],
      updateManyCalls := [] }
  (groupByDataSource cacheRes.2).foldlM
    (fun st g => processDataSource env userIsBasic g st) st0

/-- `IDataProviderHistoricalResponse`: one day of historical data;
`marketPrice` is `none` when the field is missing or not a number. -/
structure HistEntry where
  marketPrice : Option Rat
deriving DecidableEq

/-- A per-date series, keyed by formatted date strings. -/
abbrev HistData := List (String × HistEntry)

/-- Environment of `DataProviderService.getHistoricalRaw`: configuration and
the behaviour of the out-of-source provider adapters and of
`eachDayOfInterval` on the requested interval. -/
structure HistEnv where
  DEFAULT_CURRENCY : String
  DERIVED_CURRENCIES : List DerivedCurrency
  exchangeRateDataSource : String
  canHandle : String → String → Bool
  fetchHistorical : String → String → List (String × HistData)
  daysOfInterval : List String

/-- One iteration of the derived-currency swap loop of `getHistoricalRaw`
(lines 296-315): when the derived pair is requested with the exchange-rate
data source, remove every identifier carrying the derived pair symbol and
append the root pair with the exchange-rate data source. -/
def swapStep (env : HistEnv) (ids : List AssetProfileIdentifier)
    (d : DerivedCurrency) : List AssetProfileIdentifier :=
  if ids.any
      (fun it =>
        it.dataSource == env.exchangeRateDataSource &&
          it.symbol == env.DEFAULT_CURRENCY ++ d.currency) then
    (ids.filter
        (fun it => it.symbol != env.DEFAULT_CURRENCY ++ d.currency)) ++
      [⟨env.exchangeRateDataSource, env.DEFAULT_CURRENCY ++ d.rootCurrency⟩]
  else ids

/-- The derived-currency swap loop of `getHistoricalRaw` (lines 296-315). -/
def swapDerived (env : HistEnv) (ids : List AssetProfileIdentifier) :
    List AssetProfileIdentifier :=
  env.DERIVED_CURRENCIES.foldl (swapStep env) ids

/-- The fetch loop of `getHistoricalRaw` (lines 334-367): for each identifier
the provider can handle, the `USX` pair yields a fixed series of price `100`
over the requested interval, any other symbol is fetched and projected to
`data?.[symbol]` (`none` when the provider map lacks the symbol). -/
def histAllData (env : HistEnv) (ids : List AssetProfileIdentifier) :
    List (String × Option HistData) :=
  (ids.filter (fun it => env.canHandle it.dataSource it.symbol)).map
    (fun it =>
      if it.symbol == env.DEFAULT_CURRENCY ++ "USX" then
        (it.symbol,
          some (env.daysOfInterval.map (fun d => (d, ⟨some 100⟩))))
      else
        (it.symbol,
          List.lookup it.symbol (env.fetchHistorical it.dataSource it.symbol)))

/-- `DataProviderService.transformHistoricalData` (lines 716-749): the series
of the root pair, restricted to dates with a numeric price, each price
multiplied by the factor. -/
def transformHistoricalData (allData : List (String × Option HistData))
    (currency : String) (factor : Rat) : HistData :=
  let rootData := ((allData.find? (fun e => e.1 == currency)).bind
    (fun e => e.2)).getD []
  rootData.filterMap
    (fun e => e.2.marketPrice.map (fun p => (e.1, ⟨some (factor * p)⟩)))

/-- The result-assembly loop of `getHistoricalRaw` (lines 372-388): for every
fetched series, first add the transformed series under the derived pair when
the symbol is the root pair of a derived currency, then store the series
under its own symbol. -/
def histStep (env : HistEnv) (allData : List (String × Option HistData))
    (res : List (String × Option HistData)) (e : String × Option HistData) :
    List (String × Option HistData) :=
  let res :=
    match env.DERIVED_CURRENCIES.find?
        (fun d => env.DEFAULT_CURRENCY ++ d.rootCurrency == e.1) with
    | some d =>
      setKey res (env.DEFAULT_CURRENCY ++ d.currency)
        (some (transformHistoricalData allData
          (env.DEFAULT_CURRENCY ++ d.rootCurrency) d.factor))
    | none => res
  setKey res e.1 e.2

def histAssemble (env : HistEnv) (allData : List (String × Option HistData)) :
    List (String × Option HistData) :=
  allData.foldl (histStep env allData) []

/-- `DataProviderService.getHistoricalRaw` (lines 285-396): derived-currency
swap, `uniqWith` deduplication by `(dataSource, symbol)` (first occurrence
kept), fetch, assembly. -/
def getHistoricalRaw (env : HistEnv) (ids : List AssetProfileIdentifier) :
    List (String × Option HistData) :=
  histAssemble env (histAllData env (dedupKeepFirst (swapDerived env ids)))

/-- A row of the `MarketData` table as consumed by the `reduce` of
`getHistorical`; `date` is already formatted with `DATE_FORMAT`. -/
structure MarketDataRow where
  symbol : String
  date : String
  marketPrice : Rat
deriving DecidableEq

/-- `DataProviderService.getHistorical` (lines 219-283).  The boolean result
component records whether the database was queried.  `dbResult` is the
outcome of the raw query; on failure the error is logged and the `finally`
block returns the still-empty accumulated response. -/
def getHistorical (items : List AssetProfileIdentifier)
    (fromValid toValid : Bool)
    (dbResult : Except Unit (List MarketDataRow)) :
    List (String × HistData) × Bool :=
  if items.isEmpty || !fromValid || !toValid then ([], false)
  else
    match dbResult with
    | Except.error _ => ([], true)
    | Except.ok rows =>
      (rows.foldl
        (fun r row =>
          let inner := (List.lookup row.symbol r).getD []
          setKey r row.symbol
            (setKey inner row.date ⟨some row.marketPrice⟩))
        [], true)

/-- One `GhostfolioController` data endpoint (asset-profile, dividends,
historical, lookup, quotes all share this shape, lines 866-1053): reject with
HTTP 429 when the user's daily request count strictly exceeds the maximum,
otherwise call the service, increment the daily request count and return the
value, mapping any service or increment failure to HTTP 500.  The result
triple is (HTTP outcome, whether the underlying service was invoked, number
of successful increments). -/
def ghostfolioEndpoint {α : Type} (dailyRequests maxDailyRequests : Nat)
    (serviceResult : Except Unit α) (incrementOk : Bool) :
    Except Nat α × Bool × Nat :=
  if maxDailyRequests < dailyRequests then
    (Except.error 429, false, 0)
  else
    match serviceResult with
    | Except.error _ => (Except.error 500, true, 0)
    | Except.ok v =>
      if incrementOk then (Except.ok v, true, 1)
      else (Except.error 500, true, 1)

/-- `DataProviderInfo` as carried by a lookup item; optional fields are
erased for subscribed installations. -/
structure ProviderInfo where
  isPremium : Bool
  dataSource : Option String
  name : Option String
  url : Option String
deriving DecidableEq

/-- `LookupItem`: the fields `search` reads or writes.  `currency` is `none`
when the upstream item has no currency field, `some ""` when it is empty
(both are falsy in the source filter). -/
structure LookupItem where
  name : String
  currency : Option String
  assetSubClass : String
  dataProviderInfo : ProviderInfo
deriving DecidableEq

/-- Environment of `DataProviderService.search` and `getDataSources`:
configuration lists, the stored Ghostfolio API key and the search behaviour
of each provider adapter (`none` when the adapter resolves without items). -/
structure SearchEnv where
  DATA_SOURCES : List String
  DATA_SOURCES_LEGACY : List String
  ghostfolioApiKey : Option String
  searchAdapter : String → String → Option (List LookupItem)
  ENABLE_FEATURE_SUBSCRIPTION : Bool
  DEFAULT_CURRENCY : String

/-- `DataProviderService.getDataSources` (lines 163-195): legacy list for
non-admin users created before 2025-03-23 when it is non-empty, `GHOSTFOLIO`
appended when requested or an API key is stored, result sorted. -/
def getDataSources (env : SearchEnv)
    (includeGhostfolio userIsAdmin userCreatedBeforeCutoff : Bool) :
    List String :=
  let base :=
    if !userIsAdmin && userCreatedBeforeCutoff &&
        decide (0 < env.DATA_SOURCES_LEGACY.length) then
      env.DATA_SOURCES_LEGACY
    else env.DATA_SOURCES
  let withGf :=
    if includeGhostfolio || env.ghostfolioApiKey.isSome then
      base ++ ["GHOSTFOLIO"]
    else base
  withGf.insertionSort (fun a b => a ≤ b)

/-- JavaScript truthiness of the `currency` field. -/
def hasTruthyCurrency (it : LookupItem) : Bool :=
  match it.currency with
  | some c => c != ""
  | none => false

/-- The trailing `' ' + DEFAULT_CURRENCY` strip applied to cryptocurrency
names (the anchored regex replace of lines 684-687). -/
def stripTrailingDefaultCurrency (dc : String) (s : String) : String :=
  if s.endsWith (" " ++ dc) then s.dropRight (dc.length + 1) else s

/-- The per-item map step of `search` (lines 666-691): premium flag and
provider identity rewriting plus the experimental cryptocurrency rename. -/
def modifyLookupItem (enableSubscription userIsPremium userExperimental : Bool)
    (dc : String) (it : LookupItem) : LookupItem :=
  let info := it.dataProviderInfo
  let info :=
    if enableSubscription then
      { info with
        isPremium := if userIsPremium then false else info.isPremium
        dataSource := none, name := none, url := none }
    else { info with isPremium := false }
  let it := { it with dataProviderInfo := info }
  if it.assetSubClass == "CRYPTOCURRENCY" && userExperimental then
    { it with name := stripTrailingDefaultCurrency dc it.name }
  else it

/-- The case-insensitive name order used by the final sort of `search`
(`localeCompare` on lower-cased names, modelled as lexicographic order on
lower-cased names). -/
def nameLE (a b : LookupItem) : Prop :=
  a.name.toLower ≤ b.name.toLower

instance : DecidableRel nameLE := fun a b =>
  inferInstanceAs (Decidable (a.name.toLower ≤ b.name.toLower))

instance : IsTotal LookupItem nameLE :=
  ⟨fun a b => le_total a.name.toLower b.name.toLower⟩

instance : IsTrans LookupItem nameLE :=
  ⟨fun _ _ _ h h' => le_trans h h'⟩

/-- Result of a `search` run: the returned items and the data sources that
were queried. -/
structure SearchResult where
  items : List LookupItem
  searchedDataSources : List String
deriving DecidableEq

/-- `DataProviderService.search` (lines 621-699): early return on short
queries, fan-out over the user's data sources, concatenation of non-empty
result lists, currency filter, per-item rewriting and the case-insensitive
sort by name. -/
def searchQuotes (env : SearchEnv) (query : String)
    (userIsAdmin userCreatedBeforeCutoff userIsPremium userExperimental :
      Bool) : SearchResult :=
  if query.length < 2 then ⟨[], []⟩
  else
    let dataSources := getDataSources env false userIsAdmin
      userCreatedBeforeCutoff
    let lookupItems := dataSources.foldl
      (fun acc ds =>
        match env.searchAdapter ds query with
        | some items => if 0 < items.length then acc ++ items else acc
        | none => acc)
      []
    let mapped := (lookupItems.filter hasTruthyCurrency).map
      (modifyLookupItem env.ENABLE_FEATURE_SUBSCRIPTION userIsPremium
        userExperimental env.DEFAULT_CURRENCY)
    ⟨mapped.insertionSort nameLE, dataSources⟩

/-- The derived-currency pair symbols of the configuration. -/
def derivedPairs (env : QuoteEnv) : List String :=
  env.DERIVED_CURRENCIES.map (fun d => env.DEFAULT_CURRENCY ++ d.currency)

/-- The upstream requests a `getQuotes` run performs: every group, chunked by
the provider's maximum. -/
def plannedCalls (env : QuoteEnv) (useCache userIsBasic : Bool)
    (items : List AssetProfileIdentifier) : List (String × List String) :=
  (groupByDataSource (itemsToFetchOf env useCache items)).flatMap
    (fun g =>
      (chunkList (maxFor env g.1) (filteredSymbols env g.1 userIsBasic g.2)).map
        (fun c => (g.1, c)))

def exEnvBase : QuoteEnv where
  DEFAULT_CURRENCY := "USD"
  DERIVED_CURRENCIES := [⟨"GBp", 100, "GBP"⟩]
  exchangeRateDataSource := "ECB"
  cache := fun _ _ => none
  fetchQuotes := fun ds syms => syms.map (fun s =>
    (s, { currency := s.drop 3, dataSource := ds, marketPrice := some 2,
          marketState := "open" }))
  isPremium := fun _ => false
  maxNumberOfSymbolsPerRequest := fun _ => some 10
  ENABLE_FEATURE_SUBSCRIPTION := false
  CACHE_QUOTES_TTL := 3600
  today := "D0"
  isCurrency := fun c => c == "GBP" || c == "GBp" || c == "USD" || c == "USX"
  isDerivedCurrency := fun c => c == "GBp" || c == "USX"
  getCurrencyFromSymbol := fun s => s.drop 3
  updateManyFails := fun _ => false

def exStC7 : QuoteState :=
  ⟨[("AAPL", ⟨"L", "Y", some 2, "open"⟩)],
   [⟨"Y", "AAPL", ⟨"L", "Y", some 2, "open"⟩, 3600⟩],
   [("Y", ["AAPL"])],
   [updateManyData exEnvBase [("AAPL", ⟨"L", "Y", some 2, "open"⟩)]]⟩

def exEnvC2 : QuoteEnv :=
  { exEnvBase with
    fetchQuotes := fun _ _ => []
    maxNumberOfSymbolsPerRequest := fun _ => some 2 }

def exStC2 : QuoteState :=
  ⟨[], [], [("Y", ["A1", "A2"]), ("Y", ["A3"])], [[], []]⟩

def exSearchEnv : SearchEnv where
  DATA_SOURCES := ["Y"]
  DATA_SOURCES_LEGACY := []
  ghostfolioApiKey := none
  searchAdapter := fun _ _ =>
    some [⟨"apple", some "USD", "STOCK", ⟨false, none, none, none⟩⟩]
  ENABLE_FEATURE_SUBSCRIPTION := false
  DEFAULT_CURRENCY := "USD"

def exEnvC6 : QuoteEnv :=
  { exEnvBase with
    isPremium := fun ds => ds == "PREM"
    ENABLE_FEATURE_SUBSCRIPTION := true }

def exEnvC9 : QuoteEnv :=
  { exEnvBase with
    cache := fun _ sym =>
      if sym == "USDUSX" then
        some (CacheEntry.parseable ⟨"USX", "ECB", some 42, "closed"⟩)
      else none
    fetchQuotes := fun _ _ => [] }

def exHistEnv : HistEnv where
  DEFAULT_CURRENCY := "USD"
  DERIVED_CURRENCIES := [⟨"GBp", 100, "GBP"⟩]
  exchangeRateDataSource := "ECB"
  canHandle := fun _ _ => true
  fetchHistorical := fun _ _ => []
  daysOfInterval := ["2026-01-01", "2026-01-02"]

def exRespC3 : IDataProviderResponse := ⟨"GBP", "ECB", some 2, "open"⟩

def exResultC3 : List (String × IDataProviderResponse) :=
  [("USDGBP", exRespC3)]

def exStC3 : QuoteState :=
  ⟨[("USDGBP", exRespC3), ("USDGBp", ⟨"GBp", "ECB", some (2 * 100), "open"⟩)],
   [⟨"ECB", "USDGBP", exRespC3, 3600⟩,
    ⟨"ECB", "USDGBp", ⟨"GBp", "ECB", some (2 * 100), "open"⟩, 3600⟩],
   [], []⟩

def exHistC4Data : HistData := [("2026-01-01", ⟨some 2⟩), ("2026-01-02", ⟨none⟩)]

def exHistEnvC4 : HistEnv where
  DEFAULT_CURRENCY := "USD"
  DERIVED_CURRENCIES := [⟨"GBp", 100, "GBP"⟩]
  exchangeRateDataSource := "ECB"
  canHandle := fun _ _ => true
  fetchHistorical := fun _ sym => [(sym, exHistC4Data)]
  daysOfInterval := ["2026-01-01"]

def exRespC1 : IDataProviderResponse := ⟨"L", "Y", some 2, "open"⟩

def exStC1 : QuoteState :=
  ⟨[("AAPL", exRespC1)], [⟨"Y", "AAPL", exRespC1, 3600⟩],
   [("Y", ["AAPL"])], [updateManyData exEnvBase [("AAPL", exRespC1)]]⟩

def exStC1e : QuoteState :=
  ⟨[("AAPL", exRespC1)], [⟨"Y", "AAPL", exRespC1, 3600⟩], [], []⟩

theorem lookup_setKey_self {α : Type} (m : List (String × α)) (k : String)
    (v : α) : List.lookup k (setKey m k v) = some v := by
  induction m with
  | nil => simp [setKey, List.lookup]
  | cons p rest ih =>
    obtain ⟨k₁, v₁⟩ := p
    by_cases h : k₁ = k
    · subst h
      simp [setKey, List.lookup]
    · have hbeq : (k == k₁) = false := by simp [Ne.symm h]
      simp [setKey, h, List.lookup, hbeq, ih]

theorem lookup_setKey_ne {α : Type} (m : List (String × α)) (k k' : String)
    (v : α) (h : k' ≠ k) :
    List.lookup k' (setKey m k v) = List.lookup k' m := by
  have hbeq : (k' == k) = false := by simp [h]
  induction m with
  | nil => simp [setKey, List.lookup, hbeq]
  | cons p rest ih =>
    obtain ⟨k₁, v₁⟩ := p
    by_cases h₁ : k₁ = k
    · subst h₁
      simp [setKey, List.lookup, hbeq]
    · simp [setKey, h₁, List.lookup, ih]

theorem mem_dedupAux {α : Type} [DecidableEq α] (a : α) :
    ∀ (l seen : List α), a ∈ dedupAux seen l ↔ a ∈ l ∧ a ∉ seen := by
  intro l
  induction l with
  | nil => intro seen; simp [dedupAux]
  | cons b l ih =>
    intro seen
    by_cases hb : b ∈ seen
    · rw [dedupAux, if_pos hb, ih]
      constructor
      · rintro ⟨h1, h2⟩; exact ⟨List.mem_cons_of_mem b h1, h2⟩
      · rintro ⟨h1, h2⟩
        rcases List.mem_cons.mp h1 with rfl | h1
        · exact absurd hb h2
        · exact ⟨h1, h2⟩
    · rw [dedupAux, if_neg hb]
      by_cases hab : a = b
      · subst hab; simp [hb]
      · simp only [List.mem_cons, hab, false_or, ih, List.mem_cons]

theorem mem_dedupKeepFirst {α : Type} [DecidableEq α] (a : α) (l : List α) :
    a ∈ dedupKeepFirst l ↔ a ∈ l := by
  unfold dedupKeepFirst
  rw [mem_dedupAux]
  simp

theorem nodup_dedupAux {α : Type} [DecidableEq α] :
    ∀ (l seen : List α), (dedupAux seen l).Nodup := by
  intro l
  induction l with
  | nil => intro seen; simp [dedupAux]
  | cons b l ih =>
    intro seen
    by_cases hb : b ∈ seen
    · rw [dedupAux, if_pos hb]; exact ih seen
    · rw [dedupAux, if_neg hb]
      refine List.Nodup.cons ?_ (ih (b :: seen))
      intro hmem
      exact ((mem_dedupAux b l (b :: seen)).mp hmem).2 (List.mem_cons_self b seen)

theorem nodup_dedupKeepFirst {α : Type} [DecidableEq α] (l : List α) :
    (dedupKeepFirst l).Nodup :=
  nodup_dedupAux l []

theorem chunkListFuel_congr (m : Nat) (hm : m ≠ 0) :
    ∀ (fuel : Nat) (xs : List String), xs.length ≤ fuel →
      ∀ (fuel' : Nat), xs.length ≤ fuel' →
        chunkListFuel m fuel xs = chunkListFuel m fuel' xs := by
  intro fuel
  induction fuel using Nat.strong_induction_on with
  | _ fuel ih =>
    intro xs hxs fuel' hxs'
    match xs with
    | [] => cases fuel <;> cases fuel' <;> rfl
    | x :: xs =>
      cases fuel with
      | zero => simp at hxs
      | succ f =>
        cases fuel' with
        | zero => simp at hxs'
        | succ f' =>
          show (if m = 0 then [] else _) = (if m = 0 then [] else _)
          rw [if_neg hm, if_neg hm]
          congr 1
          have hlen : ((x :: xs).drop m).length ≤ f := by
            simp only [List.length_drop, List.length_cons]
            simp only [List.length_cons] at hxs
            omega
          have hlen' : ((x :: xs).drop m).length ≤ f' := by
            simp only [List.length_drop, List.length_cons]
            simp only [List.length_cons] at hxs'
            omega
          exact ih f (Nat.lt_succ_self f) _ hlen f' hlen'

theorem chunkList_cons_eq (m : Nat) (hm : m ≠ 0) (x : String)
    (xs : List String) :
    chunkList m (x :: xs) =
      (x :: xs).take m :: chunkList m ((x :: xs).drop m) := by
  have h1 : chunkList m (x :: xs) =
      (if m = 0 then ([] : List (List String))
       else (x :: xs).take m ::
         chunkListFuel m xs.length ((x :: xs).drop m)) := rfl
  rw [h1, if_neg hm]
  congr 1
  refine chunkListFuel_congr m hm xs.length _ ?_ _ le_rfl
  simp only [List.length_drop, List.length_cons]
  omega

theorem chunkList_zero (xs : List String) : chunkList 0 xs = [] := by
  cases xs with
  | nil => rfl
  | cons x xs => rfl

theorem chunkList_flatten_aux (m : Nat) (hm : m ≠ 0) :
    ∀ (n : Nat) (xs : List String), xs.length ≤ n →
      (chunkList m xs).flatten = xs := by
  intro n
  induction n with
  | zero =>
    intro xs h
    rw [List.length_eq_zero.mp (Nat.le_zero.mp h)]
    rfl
  | succ n ih =>
    intro xs h
    match xs with
    | [] => rfl
    | x :: xs =>
      have hd : ((x :: xs).drop m).length ≤ n := by
        simp only [List.length_drop, List.length_cons]
        simp only [List.length_cons] at h
        omega
      rw [chunkList_cons_eq m hm x xs, List.flatten_cons, ih _ hd,
        List.take_append_drop]

theorem chunkList_flatten (m : Nat) (hm : m ≠ 0) (xs : List String) :
    (chunkList m xs).flatten = xs :=
  chunkList_flatten_aux m hm xs.length xs le_rfl

theorem chunkList_length_le_aux (m : Nat) (hm : m ≠ 0) :
    ∀ (n : Nat) (xs : List String), xs.length ≤ n →
      ∀ c ∈ chunkList m xs, c.length ≤ m := by
  intro n
  induction n with
  | zero =>
    intro xs h
    rw [List.length_eq_zero.mp (Nat.le_zero.mp h)]
    simp [chunkList, chunkListFuel]
  | succ n ih =>
    intro xs h c hc
    match xs with
    | [] => simp [chunkList, chunkListFuel] at hc
    | x :: xs =>
      rw [chunkList_cons_eq m hm x xs] at hc
      rcases List.mem_cons.mp hc with hc | hc
      · subst hc
        simp [List.length_take]
      · refine ih _ ?_ c hc
        simp only [List.length_drop, List.length_cons]
        simp only [List.length_cons] at h
        omega

theorem chunkList_length_le (m : Nat) (xs : List String) :
    ∀ c ∈ chunkList m xs, c.length ≤ m := by
  by_cases hm : m = 0
  · subst hm
    rw [chunkList_zero]
    simp
  · exact chunkList_length_le_aux m hm xs.length xs le_rfl

theorem chunkList_single (m : Nat) (xs : List String) (hne : xs ≠ [])
    (hlen : xs.length ≤ m) : chunkList m xs = [xs] := by
  have hm : m ≠ 0 := by
    intro h
    subst h
    exact hne (List.length_eq_zero.mp (Nat.le_zero.mp hlen))
  match xs, hne with
  | x :: xs, _ =>
    rw [chunkList_cons_eq m hm x xs, List.take_of_length_le hlen,
      List.drop_of_length_le hlen]
    rfl

theorem countP_pos_of_sum_eq_one (l : List Nat) (h : l.sum = 1) :
    l.countP (fun n => decide (0 < n)) = 1 := by
  induction l with
  | nil => simp at h
  | cons a l ih =>
    rw [List.sum_cons] at h
    match a, h with
    | 0, h =>
      simp only [List.countP_cons]
      simpa using ih (by simpa using h)
    | 1, h =>
      have hl : l.sum = 0 := by omega
      have hz : l.countP (fun n => decide (0 < n)) = 0 := by
        rw [List.countP_eq_zero]
        intro x hx
        have := (List.sum_eq_zero_iff.mp hl) x hx
        simp [this]
      simp [List.countP_cons, hz]
    | (n + 2), h => omega

theorem chunkList_countP_eq_one (m : Nat) (hm : m ≠ 0) (xs : List String)
    (hnd : xs.Nodup) (s : String) (hs : s ∈ xs) :
    (chunkList m xs).countP (fun c => decide (s ∈ c)) = 1 := by
  have hfl := chunkList_flatten m hm xs
  have hcount : (List.map (List.count s) (chunkList m xs)).sum = 1 := by
    rw [← List.count_flatten, hfl]
    exact List.count_eq_one_of_mem hnd hs
  have h1 := countP_pos_of_sum_eq_one _ hcount
  rw [List.countP_map] at h1
  rw [← h1]
  apply List.countP_congr
  intro c _
  simp only [Function.comp_apply, decide_eq_true_eq]
  exact List.count_pos_iff.symm

theorem foldlM_except_inv {σ α : Type} (P : σ → Prop)
    (f : σ → α → Except Unit σ) (l : List α)
    (hf : ∀ s a s', a ∈ l → f s a = Except.ok s' → P s → P s') :
    ∀ {s s' : σ}, List.foldlM f s l = Except.ok s' → P s → P s' := by
  induction l with
  | nil =>
    intro s s' h hs
    rw [List.foldlM_nil] at h
    cases h
    exact hs
  | cons a l ih =>
    intro s s' h hs
    rw [List.foldlM_cons] at h
    cases hfa : f s a with
    | error e =>
      rw [hfa] at h
      exact Except.noConfusion h
    | ok s1 =>
      rw [hfa] at h
      exact ih (fun t b t' hb => hf t b t' (List.mem_cons_of_mem a hb)) h
        (hf s a s1 (List.mem_cons_self a l) hfa hs)

theorem derivedStep_ok (env : QuoteEnv) (ds : String)
    (result : List (String × IDataProviderResponse)) (sym : String)
    (resp : IDataProviderResponse) (st : QuoteState) (d : DerivedCurrency)
    (st' : QuoteState)
    (h : derivedStep env ds result sym resp st d = Except.ok st') :
    st' = st ∨
      ∃ rr p, sym = env.DEFAULT_CURRENCY ++ d.rootCurrency ∧
        List.lookup (env.DEFAULT_CURRENCY ++ d.rootCurrency) result = some rr ∧
        rr.marketPrice = some p ∧
        st' = { st with
          response := setKey st.response (env.DEFAULT_CURRENCY ++ d.currency)
            (derivedQuote d resp p)
          cacheWrites := st.cacheWrites ++
            [⟨ds, env.DEFAULT_CURRENCY ++ d.currency, derivedQuote d resp p,
              env.CACHE_QUOTES_TTL⟩] } := by
  unfold derivedStep at h
  by_cases hsym : sym = env.DEFAULT_CURRENCY ++ d.rootCurrency
  · rw [if_pos hsym] at h
    split at h
    · rename_i rr hlk
      split at h
      · rename_i p hmp
        cases h
        exact Or.inr ⟨rr, p, hsym, hlk, hmp, rfl⟩
      · exact Except.noConfusion h
    · exact Except.noConfusion h
  · rw [if_neg hsym] at h
    cases h
    exact Or.inl rfl

theorem synthesizeDerived_frame (env : QuoteEnv) (ds : String)
    (result : List (String × IDataProviderResponse)) (sym : String)
    (resp : IDataProviderResponse) (st st' : QuoteState)
    (h : synthesizeDerived env ds result sym resp st = Except.ok st') :
    st'.fetchCalls = st.fetchCalls ∧
      st'.updateManyCalls = st.updateManyCalls := by
  refine foldlM_except_inv
    (fun t => t.fetchCalls = st.fetchCalls ∧
      t.updateManyCalls = st.updateManyCalls) _ _ ?_ h ⟨rfl, rfl⟩
  intro t d t' hd hstep ht
  rcases derivedStep_ok env ds result sym resp t d t' hstep with
    h1 | ⟨rr, p, _, _, _, h1⟩
  · exact h1 ▸ ht
  · subst h1; exact ht

theorem synthesizeDerived_cacheWrites (env : QuoteEnv) (ds : String)
    (result : List (String × IDataProviderResponse)) (sym : String)
    (resp : IDataProviderResponse) (st st' : QuoteState) (w : CacheWrite)
    (h : synthesizeDerived env ds result sym resp st = Except.ok st')
    (hw : w ∈ st.cacheWrites) : w ∈ st'.cacheWrites := by
  refine foldlM_except_inv (fun t => w ∈ t.cacheWrites) _ _ ?_ h hw
  intro t d t' hd hstep ht
  rcases derivedStep_ok env ds result sym resp t d t' hstep with
    h1 | ⟨rr, p, _, _, _, h1⟩
  · exact h1 ▸ ht
  · subst h1; exact List.mem_append_left _ ht

theorem synthesizeDerived_lookup (env : QuoteEnv) (ds : String)
    (result : List (String × IDataProviderResponse)) (sym : String)
    (resp : IDataProviderResponse) (st st' : QuoteState) (key : String)
    (hkey : ∀ d ∈ env.DERIVED_CURRENCIES,
      env.DEFAULT_CURRENCY ++ d.currency ≠ key)
    (h : synthesizeDerived env ds result sym resp st = Except.ok st') :
    List.lookup key st'.response = List.lookup key st.response := by
  refine foldlM_except_inv
    (fun t => List.lookup key t.response = List.lookup key st.response)
    _ _ ?_ h rfl
  intro t d t' hd hstep ht
  rcases derivedStep_ok env ds result sym resp t d t' hstep with
    h1 | ⟨rr, p, _, _, _, h1⟩
  · exact h1 ▸ ht
  · subst h1
    show List.lookup key
      (setKey t.response (env.DEFAULT_CURRENCY ++ d.currency)
        (derivedQuote d resp p)) = _
    rw [lookup_setKey_ne _ _ _ _ (Ne.symm (hkey d hd))]
    exact ht

theorem entryStep_ok_cases (env : QuoteEnv) (ds : String)
    (result : List (String × IDataProviderResponse)) (st : QuoteState)
    (e : String × IDataProviderResponse) (st' : QuoteState)
    (h : entryStep env ds result st e = Except.ok st') :
    ((skipSymbols env).contains e.1 = true ∧ st' = st) ∨
      ((skipSymbols env).contains e.1 = false ∧
        synthesizeDerived env ds result e.1 e.2
          { st with
            response := setKey st.response e.1 e.2
            cacheWrites := st.cacheWrites ++
              [⟨ds, e.1, e.2, env.CACHE_QUOTES_TTL⟩] } = Except.ok st') := by
  unfold entryStep at h
  by_cases hskip : (skipSymbols env).contains e.1 = true
  · rw [if_pos hskip] at h
    cases h
    exact Or.inl ⟨hskip, rfl⟩
  · rw [if_neg hskip] at h
    exact Or.inr ⟨Bool.not_eq_true _ ▸ hskip, h⟩

theorem processEntries_frame (env : QuoteEnv) (ds : String)
    (result : List (String × IDataProviderResponse)) (st st' : QuoteState)
    (h : processEntries env ds result st = Except.ok st') :
    st'.fetchCalls = st.fetchCalls ∧
      st'.updateManyCalls = st.updateManyCalls := by
  refine foldlM_except_inv
    (fun t => t.fetchCalls = st.fetchCalls ∧
      t.updateManyCalls = st.updateManyCalls) _ _ ?_ h ⟨rfl, rfl⟩
  intro t e t' he hstep ht
  rcases entryStep_ok_cases env ds result t e t' hstep with ⟨_, h1⟩ | ⟨_, h1⟩
  · exact h1 ▸ ht
  · have h2 := synthesizeDerived_frame env ds result e.1 e.2 _ t' h1
    exact ⟨h2.1.trans ht.1, h2.2.trans ht.2⟩

theorem processEntries_cacheWrites (env : QuoteEnv) (ds : String)
    (result : List (String × IDataProviderResponse)) (st st' : QuoteState)
    (w : CacheWrite) (h : processEntries env ds result st = Except.ok st')
    (hw : w ∈ st.cacheWrites) : w ∈ st'.cacheWrites := by
  refine foldlM_except_inv (fun t => w ∈ t.cacheWrites) _ _ ?_ h hw
  intro t e t' he hstep ht
  rcases entryStep_ok_cases env ds result t e t' hstep with ⟨_, h1⟩ | ⟨_, h1⟩
  · exact h1 ▸ ht
  · exact synthesizeDerived_cacheWrites env ds result e.1 e.2 _ t' w h1
      (List.mem_append_left _ ht)

theorem processEntries_lookup (env : QuoteEnv) (ds : String)
    (result : List (String × IDataProviderResponse)) (st st' : QuoteState)
    (key : String) (hres : ∀ e ∈ result, e.1 ≠ key)
    (hkey : ∀ d ∈ env.DERIVED_CURRENCIES,
      env.DEFAULT_CURRENCY ++ d.currency ≠ key)
    (h : processEntries env ds result st = Except.ok st') :
    List.lookup key st'.response = List.lookup key st.response := by
  refine foldlM_except_inv
    (fun t => List.lookup key t.response = List.lookup key st.response)
    _ _ ?_ h rfl
  intro t e t' he hstep ht
  rcases entryStep_ok_cases env ds result t e t' hstep with ⟨_, h1⟩ | ⟨_, h1⟩
  · exact h1 ▸ ht
  · have h2 := synthesizeDerived_lookup env ds result e.1 e.2 _ t' key hkey h1
    rw [h2]
    show List.lookup key (setKey t.response e.1 e.2) = _
    rw [lookup_setKey_ne _ _ _ _ (Ne.symm (hres e he))]
    exact ht

theorem processChunk_ok (env : QuoteEnv) (ds : String) (chunk : List String)
    (st st' : QuoteState)
    (h : processChunk env ds chunk st = Except.ok st') :
    ∃ stm, processEntries env ds (env.fetchQuotes ds chunk)
        { st with fetchCalls := st.fetchCalls ++ [(ds, chunk)] } =
          Except.ok stm ∧
      st' = { stm with
        updateManyCalls := stm.updateManyCalls ++
          [updateManyData env stm.response] } := by
  unfold processChunk at h
  split at h
  · exact Except.noConfusion h
  · rename_i stm hpe
    cases h
    exact ⟨stm, hpe, rfl⟩

theorem processChunk_fetchCalls (env : QuoteEnv) (ds : String)
    (chunk : List String) (st st' : QuoteState)
    (h : processChunk env ds chunk st = Except.ok st') :
    st'.fetchCalls = st.fetchCalls ++ [(ds, chunk)] := by
  obtain ⟨stm, hpe, rfl⟩ := processChunk_ok env ds chunk st st' h
  exact (processEntries_frame env ds _ _ stm hpe).1

theorem processChunk_lookup (env : QuoteEnv) (ds : String)
    (chunk : List String) (st st' : QuoteState) (key : String)
    (hres : ∀ e ∈ env.fetchQuotes ds chunk, e.1 ≠ key)
    (hkey : ∀ d ∈ env.DERIVED_CURRENCIES,
      env.DEFAULT_CURRENCY ++ d.currency ≠ key)
    (h : processChunk env ds chunk st = Except.ok st') :
    List.lookup key st'.response = List.lookup key st.response := by
  obtain ⟨stm, hpe, rfl⟩ := processChunk_ok env ds chunk st st' h
  exact processEntries_lookup env ds _
    { st with fetchCalls := st.fetchCalls ++ [(ds, chunk)] } stm key hres hkey
    hpe

theorem processChunk_lastUpdate (env : QuoteEnv) (ds : String)
    (chunk : List String) (st st' : QuoteState)
    (h : processChunk env ds chunk st = Except.ok st') :
    st'.updateManyCalls.getLast? = some (updateManyData env st'.response) := by
  obtain ⟨stm, hpe, rfl⟩ := processChunk_ok env ds chunk st st' h
  show (stm.updateManyCalls ++ [updateManyData env stm.response]).getLast? = _
  rw [List.getLast?_concat]

theorem chunksFold_fetchCalls (env : QuoteEnv) (ds : String)
    (cs : List (List String)) :
    ∀ st st', List.foldlM (fun st c => processChunk env ds c st) st cs =
        Except.ok st' →
      st'.fetchCalls = st.fetchCalls ++ cs.map (fun c => (ds, c)) := by
  induction cs with
  | nil =>
    intro st st' h
    rw [List.foldlM_nil] at h
    cases h
    simp
  | cons c cs ih =>
    intro st st' h
    rw [List.foldlM_cons] at h
    cases hc : processChunk env ds c st with
    | error e => rw [hc] at h; exact Except.noConfusion h
    | ok st1 =>
      rw [hc] at h
      rw [ih st1 st' h, processChunk_fetchCalls env ds c st st1 hc]
      simp

theorem processDataSource_fetchCalls (env : QuoteEnv) (userIsBasic : Bool)
    (g : String × List AssetProfileIdentifier) (st st' : QuoteState)
    (h : processDataSource env userIsBasic g st = Except.ok st') :
    st'.fetchCalls = st.fetchCalls ++
      (chunkList (maxFor env g.1)
        (filteredSymbols env g.1 userIsBasic g.2)).map (fun c => (g.1, c)) :=
  chunksFold_fetchCalls env g.1 _ st st' h

theorem groupsFold_fetchCalls (env : QuoteEnv) (userIsBasic : Bool)
    (gs : List (String × List AssetProfileIdentifier)) :
    ∀ st st', List.foldlM (fun st g => processDataSource env userIsBasic g st)
        st gs = Except.ok st' →
      st'.fetchCalls = st.fetchCalls ++ gs.flatMap
        (fun g =>
          (chunkList (maxFor env g.1)
            (filteredSymbols env g.1 userIsBasic g.2)).map
            (fun c => (g.1, c))) := by
  induction gs with
  | nil =>
    intro st st' h
    rw [List.foldlM_nil] at h
    cases h
    simp
  | cons g gs ih =>
    intro st st' h
    rw [List.foldlM_cons] at h
    cases hg : processDataSource env userIsBasic g st with
    | error e => rw [hg] at h; exact Except.noConfusion h
    | ok st1 =>
      rw [hg] at h
      rw [ih st1 st' h, processDataSource_fetchCalls env userIsBasic g st st1 hg]
      simp

theorem getQuotes_fetchCalls (env : QuoteEnv)
    (items : List AssetProfileIdentifier) (useCache userIsBasic : Bool)
    (st : QuoteState)
    (h : getQuotes env items useCache userIsBasic = Except.ok st) :
    st.fetchCalls = plannedCalls env useCache userIsBasic items := by
  unfold getQuotes at h
  have := groupsFold_fetchCalls env userIsBasic
    (groupByDataSource (cachePhase env useCache items
      (initialResponse env items)).2) _ st h
  simpa [plannedCalls, itemsToFetchOf] using this

theorem chunkList_mem_subset (m : Nat) (xs : List String) (c : List String)
    (hc : c ∈ chunkList m xs) : ∀ x ∈ c, x ∈ xs := by
  by_cases hm : m = 0
  · subst hm
    rw [chunkList_zero] at hc
    simp at hc
  · intro x hx
    rw [← chunkList_flatten m hm xs]
    exact List.mem_flatten.mpr ⟨c, hc, hx⟩

theorem getQuotes_lookup (env : QuoteEnv)
    (items : List AssetProfileIdentifier) (useCache userIsBasic : Bool)
    (key : String)
    (hder : ∀ d ∈ env.DERIVED_CURRENCIES,
      env.DEFAULT_CURRENCY ++ d.currency ≠ key)
    (hcall : ∀ g ∈ groupByDataSource (itemsToFetchOf env useCache items),
      ∀ c ∈ chunkList (maxFor env g.1)
        (filteredSymbols env g.1 userIsBasic g.2),
        ∀ e ∈ env.fetchQuotes g.1 c, e.1 ≠ key)
    (st : QuoteState)
    (h : getQuotes env items useCache userIsBasic = Except.ok st) :
    List.lookup key st.response =
      List.lookup key
        (cachePhase env useCache items (initialResponse env items)).1 := by
  unfold getQuotes at h
  refine foldlM_except_inv
    (fun t => List.lookup key t.response =
      List.lookup key
        (cachePhase env useCache items (initialResponse env items)).1)
    _ _ ?_ h rfl
  intro t g t' hg hstep ht
  unfold processDataSource at hstep
  refine (foldlM_except_inv
    (fun u => List.lookup key u.response = List.lookup key t.response)
    _ _ ?_ hstep rfl).trans ht
  intro u c u' hc hcstep hu
  refine (processChunk_lookup env g.1 c u u' key ?_ hder hcstep).trans hu
  intro e he
  exact hcall g (by simpa [itemsToFetchOf] using hg) c hc e he

theorem cacheFold_snd (env : QuoteEnv) (u : Bool) :
    ∀ (l : List AssetProfileIdentifier)
      (pr : List (String × IDataProviderResponse) ×
        List AssetProfileIdentifier),
      (List.foldl (cacheStep env u) pr l).2 =
        pr.2 ++ l.filter (fun it => (cacheHit env u it).isNone) := by
  intro l
  induction l with
  | nil => intro pr; simp
  | cons it l ih =>
    intro pr
    rw [List.foldl_cons, ih]
    cases hh : cacheHit env u it with
    | some r => simp [cacheStep, hh]
    | none => simp [cacheStep, hh]

theorem cachePhase_snd (env : QuoteEnv) (u : Bool)
    (items : List AssetProfileIdentifier)
    (st : List (String × IDataProviderResponse)) :
    (cachePhase env u items st).2 =
      items.filter (fun it => (cacheHit env u it).isNone) := by
  unfold cachePhase
  rw [cacheFold_snd]
  simp

theorem cacheFold_fst_preserve (env : QuoteEnv) (u : Bool) (key : String) :
    ∀ (l : List AssetProfileIdentifier),
      (∀ x ∈ l, x.symbol = key → cacheHit env u x = none) →
      ∀ (pr : List (String × IDataProviderResponse) ×
        List AssetProfileIdentifier),
        List.lookup key (List.foldl (cacheStep env u) pr l).1 =
          List.lookup key pr.1 := by
  intro l
  induction l with
  | nil => intro _ pr; simp
  | cons it l ih =>
    intro hl pr
    rw [List.foldl_cons,
      ih (fun x hx => hl x (List.mem_cons_of_mem it hx))]
    cases hh : cacheHit env u it with
    | none => simp [cacheStep, hh]
    | some r =>
      have hsym : it.symbol ≠ key := by
        intro he
        rw [hl it (List.mem_cons_self it l) he] at hh
        exact Option.noConfusion hh
      simp [cacheStep, hh, lookup_setKey_ne _ _ _ _ (Ne.symm hsym)]

theorem cacheFold_fst_keeps (env : QuoteEnv) (u : Bool) (key : String)
    (r : IDataProviderResponse) :
    ∀ (l : List AssetProfileIdentifier),
      (∀ x ∈ l, x.symbol = key → cacheHit env u x = some r) →
      ∀ (pr : List (String × IDataProviderResponse) ×
        List AssetProfileIdentifier),
        List.lookup key pr.1 = some r →
        List.lookup key (List.foldl (cacheStep env u) pr l).1 = some r := by
  intro l
  induction l with
  | nil => intro _ pr hpr; simpa using hpr
  | cons it l ih =>
    intro hl pr hpr
    rw [List.foldl_cons]
    refine ih (fun x hx => hl x (List.mem_cons_of_mem it hx)) _ ?_
    by_cases hsym : it.symbol = key
    · have hhit := hl it (List.mem_cons_self it l) hsym
      simp only [cacheStep, hhit]
      rw [hsym]
      exact lookup_setKey_self _ _ _
    · cases hh : cacheHit env u it with
      | none => simpa [cacheStep, hh] using hpr
      | some r' =>
        simp only [cacheStep, hh]
        rw [lookup_setKey_ne _ _ _ _ (Ne.symm hsym)]
        exact hpr

theorem cachePhase_fst_hit (env : QuoteEnv) (u : Bool)
    (items : List AssetProfileIdentifier) (key : String)
    (r : IDataProviderResponse)
    (st : List (String × IDataProviderResponse))
    (hall : ∀ x ∈ items, x.symbol = key → cacheHit env u x = some r)
    (hex : ∃ x ∈ items, x.symbol = key) :
    List.lookup key (cachePhase env u items st).1 = some r := by
  obtain ⟨x, hx, hsym⟩ := hex
  obtain ⟨l₁, l₂, rfl⟩ := List.append_of_mem hx
  unfold cachePhase
  rw [List.foldl_append, List.foldl_cons]
  refine cacheFold_fst_keeps env u key r l₂
    (fun y hy => hall y (by simp [hy]) ) _ ?_
  have hhit : cacheHit env u x = some r := hall x (by simp) hsym
  show List.lookup key
    (cacheStep env u (List.foldl (cacheStep env u) (st, []) l₁) x).1 = some r
  simp only [cacheStep, hhit]
  rw [hsym]
  exact lookup_setKey_self _ _ _

theorem cachePhase_fst_preserve (env : QuoteEnv) (u : Bool)
    (items : List AssetProfileIdentifier) (key : String)
    (st : List (String × IDataProviderResponse))
    (hmiss : ∀ x ∈ items, x.symbol = key → cacheHit env u x = none) :
    List.lookup key (cachePhase env u items st).1 = List.lookup key st := by
  unfold cachePhase
  rw [cacheFold_fst_preserve env u key items hmiss]

/-- C5: for every rate-limited GhostfolioController data endpoint
(asset-profile, dividends, historical, lookup, quotes share the shape
embedded by `ghostfolioEndpoint`), a user whose daily request count strictly
exceeds the configured maximum receives HTTP 429 and the underlying service
is not invoked; otherwise the service is invoked, and when it and the
counter increment succeed the endpoint returns the service value having
incremented the user's daily request count exactly once. -/
theorem C5_rate_limit {α : Type} (dailyRequests maxDailyRequests : Nat)
    (svc : Except Unit α) (incrementOk : Bool) :
    (maxDailyRequests < dailyRequests →
      ghostfolioEndpoint dailyRequests maxDailyRequests svc incrementOk =
        (Except.error 429, false, 0)) ∧
    (¬ maxDailyRequests < dailyRequests →
      (ghostfolioEndpoint dailyRequests maxDailyRequests svc
        incrementOk).2.1 = true ∧
      (∀ v : α, svc = Except.ok v → incrementOk = true →
        ghostfolioEndpoint dailyRequests maxDailyRequests svc incrementOk =
          (Except.ok v, true, 1)) ∧
      (∀ e : Unit, svc = Except.error e →
        ghostfolioEndpoint dailyRequests maxDailyRequests svc incrementOk =
          (Except.error 500, true, 0))) := by
  constructor
  · intro hlt
    unfold ghostfolioEndpoint
    rw [if_pos hlt]
  · intro hge
    refine ⟨?_, ?_, ?_⟩
    · unfold ghostfolioEndpoint
      rw [if_neg hge]
      cases svc with
      | error e => rfl
      | ok v => cases incrementOk <;> rfl
    · intro v hv hinc
      subst hv
      subst hinc
      unfold ghostfolioEndpoint
      rw [if_neg hge]
      rfl
    · intro e he
      subst he
      unfold ghostfolioEndpoint
      rw [if_neg hge]

theorem C5_rate_limit_witness :
    ghostfolioEndpoint 5 4 (Except.ok (0 : Nat)) true =
      (Except.error 429, false, 0) ∧
    ghostfolioEndpoint 3 4 (Except.ok (0 : Nat)) true =
      (Except.ok 0, true, 1) :=
  ⟨(C5_rate_limit 5 4 (Except.ok 0) true).1 (by decide),
   ((C5_rate_limit 3 4 (Except.ok 0) true).2 (by decide)).2.1 0 rfl rfl⟩

/-- C10: `getHistorical` never throws: with an empty item list or an invalid
date it returns the empty response without querying the database, and when
the database query fails the error is only logged and the still-empty
accumulated response is returned. -/
theorem C10_getHistorical_total (items : List AssetProfileIdentifier)
    (fromValid toValid : Bool)
    (dbResult : Except Unit (List MarketDataRow)) :
    (items = [] ∨ fromValid = false ∨ toValid = false →
      getHistorical items fromValid toValid dbResult = ([], false)) ∧
    (items ≠ [] → fromValid = true → toValid = true →
      ∀ e : Unit, dbResult = Except.error e →
        getHistorical items fromValid toValid dbResult = ([], true)) := by
  constructor
  · rintro (rfl | rfl | rfl) <;> simp [getHistorical]
  · intro hne hf ht e he
    subst hf
    subst ht
    subst he
    simp [getHistorical, hne]

theorem C10_getHistorical_total_witness :
    getHistorical [] true true (Except.ok []) = ([], false) ∧
    getHistorical [⟨"Y", "A"⟩] true true
      (Except.error () : Except Unit (List MarketDataRow)) = ([], true) :=
  ⟨(C10_getHistorical_total [] true true (Except.ok [])).1 (Or.inl rfl),
   (C10_getHistorical_total [⟨"Y", "A"⟩] true true
      (Except.error ())).2 (by decide) rfl rfl () rfl⟩

theorem mem_updateManyData (env : QuoteEnv)
    (resp : List (String × IDataProviderResponse)) (u : MarketDataUpdate) :
    u ∈ updateManyData env resp ↔
      ∃ s r, (s, r) ∈ resp ∧ (∃ p, r.marketPrice = some p ∧ 0 < p) ∧
        r.marketState = "open" ∧
        u = { symbol := s, dataSource := r.dataSource, date := env.today,
              marketPrice := r.marketPrice, state := "INTRADAY" } := by
  unfold updateManyData
  rw [List.mem_map]
  constructor
  · rintro ⟨p, hp, rfl⟩
    rw [List.mem_filter] at hp
    obtain ⟨hmem, hpred⟩ := hp
    cases hmp : p.2.marketPrice with
    | none => rw [hmp] at hpred; exact absurd hpred (by simp)
    | some q =>
      rw [hmp] at hpred
      simp only [Bool.and_eq_true, decide_eq_true_eq, beq_iff_eq] at hpred
      exact ⟨p.1, p.2, hmem, ⟨q, hmp, hpred.1⟩, hpred.2, by rw [hmp]⟩
  · rintro ⟨s, r, hmem, ⟨p, hmp, hp⟩, hms, rfl⟩
    refine ⟨(s, r), ?_, rfl⟩
    rw [List.mem_filter]
    refine ⟨hmem, ?_⟩
    show (match (s, r).2.marketPrice with
      | some mp => decide (0 < mp) && ((s, r).2.marketState == "open")
      | none => false) = true
    rw [show (s, r).2 = r from rfl, hmp, hms]
    simp [hp]

/-- C7: after each upstream chunk is processed, the `updateMany` call of the
market-data store receives exactly the symbols of the accumulated response
whose market price is a number strictly greater than zero with market state
`open`, each persisted with the symbol's data source, its market price,
state `INTRADAY` and the start of the current UTC day; and the outcome of
`updateMany` (swallowed by `try/catch`) has no effect on the result of
`getQuotes`. -/
theorem C7_intraday_persistence (env : QuoteEnv) (ds : String)
    (chunk : List String) (st st' : QuoteState)
    (h : processChunk env ds chunk st = Except.ok st') :
    st'.updateManyCalls.getLast? = some (updateManyData env st'.response) ∧
    (∀ u, u ∈ updateManyData env st'.response ↔
      ∃ s r, (s, r) ∈ st'.response ∧ (∃ p, r.marketPrice = some p ∧ 0 < p) ∧
        r.marketState = "open" ∧
        u = { symbol := s, dataSource := r.dataSource, date := env.today,
              marketPrice := r.marketPrice, state := "INTRADAY" }) ∧
    (∀ f g items useCache userIsBasic,
      getQuotes { env with updateManyFails := f } items useCache userIsBasic =
        getQuotes { env with updateManyFails := g } items useCache
          userIsBasic) := by
  refine ⟨processChunk_lastUpdate env ds chunk st st' h,
    fun u => mem_updateManyData env st'.response u, fun f g items u b => rfl⟩

theorem C7_intraday_persistence_witness :
    exStC7.updateManyCalls.getLast? =
      some (updateManyData exEnvBase exStC7.response) :=
  (C7_intraday_persistence exEnvBase "Y" ["AAPL"] ⟨[], [], [], []⟩ exStC7
    (by rfl)).1

theorem countP_flatMap {β γ : Type} (p : γ → Bool) (f : β → List γ)
    (gs : List β) :
    (gs.flatMap f).countP p = (gs.map (fun b => (f b).countP p)).sum := by
  induction gs with
  | nil => simp
  | cons b gs ih => simp [List.flatMap_cons, List.countP_append, ih]

theorem sum_map_eq_single {β : Type} (gs : List β) (h : β → Nat) (g : β)
    (hnd : gs.Nodup) (hg : g ∈ gs) (hz : ∀ g' ∈ gs, g' ≠ g → h g' = 0) :
    (gs.map h).sum = h g := by
  induction gs with
  | nil => simp at hg
  | cons x gs ih =>
    obtain ⟨hx1, hx2⟩ := List.nodup_cons.mp hnd
    rcases List.mem_cons.mp hg with rfl | hg'
    · rw [List.map_cons, List.sum_cons, List.sum_eq_zero]
      · simp
      · intro z hz'
        rw [List.mem_map] at hz'
        obtain ⟨y, hy, rfl⟩ := hz'
        exact hz y (List.mem_cons_of_mem _ hy) (fun he => hx1 (he ▸ hy))
    · have hx : h x = 0 :=
        hz x (List.mem_cons_self x gs) (fun he => hx1 (he ▸ hg'))
      rw [List.map_cons, List.sum_cons, hx,
        ih hx2 hg' (fun g' hgm hne => hz g' (List.mem_cons_of_mem _ hgm) hne)]
      simp

theorem groupByDataSource_keys (l : List AssetProfileIdentifier) :
    (groupByDataSource l).map Prod.fst =
      dedupKeepFirst (l.map (fun it => it.dataSource)) := by
  unfold groupByDataSource
  rw [List.map_map]
  exact List.map_id _

theorem groupByDataSource_keys_nodup (l : List AssetProfileIdentifier) :
    ((groupByDataSource l).map Prod.fst).Nodup := by
  rw [groupByDataSource_keys]
  exact nodup_dedupKeepFirst _

theorem groupByDataSource_nodup (l : List AssetProfileIdentifier) :
    (groupByDataSource l).Nodup :=
  List.Nodup.of_map Prod.fst (groupByDataSource_keys_nodup l)

/-- C2: every `getQuotes` run groups the symbols to fetch by data source;
each group's filtered symbol list is split into consecutive chunks of at most
the provider's maximum (one unbounded request when no maximum is defined),
and every filtered symbol of a group occurs in exactly one upstream
`getQuotes` request of that data source. -/
theorem C2_batching (env : QuoteEnv) (items : List AssetProfileIdentifier)
    (useCache userIsBasic : Bool) (st : QuoteState)
    (hpos : ∀ ds n, env.maxNumberOfSymbolsPerRequest ds = some n → 0 < n)
    (h : getQuotes env items useCache userIsBasic = Except.ok st) :
    st.fetchCalls = plannedCalls env useCache userIsBasic items ∧
    (∀ g ∈ groupByDataSource (itemsToFetchOf env useCache items),
      (chunkList (maxFor env g.1)
          (filteredSymbols env g.1 userIsBasic g.2)).flatten =
        filteredSymbols env g.1 userIsBasic g.2 ∧
      (∀ n, env.maxNumberOfSymbolsPerRequest g.1 = some n →
        ∀ c ∈ chunkList (maxFor env g.1)
          (filteredSymbols env g.1 userIsBasic g.2), c.length ≤ n) ∧
      (env.maxNumberOfSymbolsPerRequest g.1 = none →
        filteredSymbols env g.1 userIsBasic g.2 ≠ [] →
        (filteredSymbols env g.1 userIsBasic g.2).length ≤ maxSafeInteger →
        chunkList (maxFor env g.1) (filteredSymbols env g.1 userIsBasic g.2) =
          [filteredSymbols env g.1 userIsBasic g.2]) ∧
      ((filteredSymbols env g.1 userIsBasic g.2).Nodup →
        ∀ s ∈ filteredSymbols env g.1 userIsBasic g.2,
          st.fetchCalls.countP
            (fun call => call.1 == g.1 && decide (s ∈ call.2)) = 1)) := by
  have hcalls := getQuotes_fetchCalls env items useCache userIsBasic st h
  refine ⟨hcalls, ?_⟩
  intro g hg
  have hm : maxFor env g.1 ≠ 0 := by
    unfold maxFor
    cases hmax : env.maxNumberOfSymbolsPerRequest g.1 with
    | some n =>
      have := hpos g.1 n hmax
      simp
      omega
    | none =>
      show maxSafeInteger ≠ 0
      norm_num [maxSafeInteger]
  refine ⟨chunkList_flatten _ hm _, ?_, ?_, ?_⟩
  · intro n hn c hc
    have hmf : maxFor env g.1 = n := by unfold maxFor; rw [hn]; rfl
    rw [hmf] at hc
    exact (hmf ▸ chunkList_length_le n _ c hc)
  · intro hnone hne hlen
    have hmf : maxFor env g.1 = maxSafeInteger := by
      unfold maxFor; rw [hnone]; rfl
    rw [hmf]
    exact chunkList_single maxSafeInteger _ hne hlen
  · intro hnd s hs
    rw [hcalls]
    unfold plannedCalls
    rw [countP_flatMap]
    rw [sum_map_eq_single _ _ g (groupByDataSource_nodup _) hg ?_]
    · rw [List.countP_map]
      rw [List.countP_congr (q := fun c => decide (s ∈ c))]
      · exact chunkList_countP_eq_one _ hm _ hnd s hs
      · intro c _
        simp [Function.comp]
    · intro g' hg' hne
      have hkey : g'.1 ≠ g.1 := fun he =>
        hne (List.inj_on_of_nodup_map (groupByDataSource_keys_nodup _)
          hg' hg he)
      rw [List.countP_eq_zero]
      intro a ha
      rw [List.mem_map] at ha
      obtain ⟨c, hc, rfl⟩ := ha
      simp [hkey]

theorem C2_batching_witness :
    exStC2.fetchCalls = plannedCalls exEnvC2 true false
      [⟨"Y", "A1"⟩, ⟨"Y", "A2"⟩, ⟨"Y", "A3"⟩] :=
  (C2_batching exEnvC2 [⟨"Y", "A1"⟩, ⟨"Y", "A2"⟩, ⟨"Y", "A3"⟩] true false
    exStC2
    (by
      intro ds n hn
      simp only [exEnvC2, exEnvBase] at hn
      injection hn with hn
      omega)
    (by rfl)).1

theorem searchFold_eq (env : SearchEnv) (query : String) :
    ∀ (dss : List String) (acc : List LookupItem),
      dss.foldl
        (fun acc ds =>
          match env.searchAdapter ds query with
          | some items => if 0 < items.length then acc ++ items else acc
          | none => acc)
        acc =
      acc ++ dss.flatMap (fun ds => (env.searchAdapter ds query).getD []) := by
  intro dss
  induction dss with
  | nil => intro acc; simp
  | cons ds dss ih =>
    intro acc
    rw [List.foldl_cons, ih, List.flatMap_cons]
    cases hh : env.searchAdapter ds query with
    | none => simp
    | some items =>
      by_cases hl : 0 < items.length
      · simp [hl]
      · have : items = [] := by
          cases items with
          | nil => rfl
          | cons x xs => simp at hl
        subst this
        simp

theorem modifyLookupItem_currency (e p x : Bool) (dc : String)
    (it : LookupItem) : (modifyLookupItem e p x dc it).currency =
      it.currency := by
  unfold modifyLookupItem
  dsimp only
  split <;> split <;> rfl

/-- C8: for every `search` with a query of length at least two, the query is
fanned out to every data source available to the user, the adapters' item
lists are concatenated, items without a (truthy) currency are removed, and
the returned items are a permutation of the remaining (rewritten) items
sorted by name in case-insensitive lexicographic order. -/
theorem C8_search (env : SearchEnv) (query : String)
    (userIsAdmin userCreatedBeforeCutoff userIsPremium userExperimental :
      Bool) (hq : 2 ≤ query.length) :
    (searchQuotes env query userIsAdmin userCreatedBeforeCutoff userIsPremium
        userExperimental).searchedDataSources =
      getDataSources env false userIsAdmin userCreatedBeforeCutoff ∧
    (searchQuotes env query userIsAdmin userCreatedBeforeCutoff userIsPremium
        userExperimental).items.Perm
      ((((getDataSources env false userIsAdmin
            userCreatedBeforeCutoff).flatMap
          (fun ds => (env.searchAdapter ds query).getD [])).filter
            hasTruthyCurrency).map
        (modifyLookupItem env.ENABLE_FEATURE_SUBSCRIPTION userIsPremium
          userExperimental env.DEFAULT_CURRENCY)) ∧
    List.Sorted nameLE
      (searchQuotes env query userIsAdmin userCreatedBeforeCutoff
        userIsPremium userExperimental).items ∧
    (∀ it ∈ (searchQuotes env query userIsAdmin userCreatedBeforeCutoff
        userIsPremium userExperimental).items,
      it.currency ≠ none ∧ it.currency ≠ some "") := by
  have hnlt : ¬ query.length < 2 := by omega
  unfold searchQuotes
  rw [if_neg hnlt]
  dsimp only
  rw [searchFold_eq env query _ []]
  rw [List.nil_append]
  refine ⟨rfl, ?_, ?_, ?_⟩
  · exact List.perm_insertionSort nameLE _
  · exact List.sorted_insertionSort nameLE _
  · intro it hit
    have hmem := (List.perm_insertionSort nameLE _).mem_iff.mp hit
    rw [List.mem_map] at hmem
    obtain ⟨it', hit', rfl⟩ := hmem
    rw [List.mem_filter] at hit'
    have hcur := hit'.2
    unfold hasTruthyCurrency at hcur
    rw [modifyLookupItem_currency]
    cases hc : it'.currency with
    | none => rw [hc] at hcur; exact absurd hcur (by simp)
    | some c =>
      rw [hc] at hcur
      simp only [bne_iff_ne, ne_eq] at hcur
      refine ⟨by simp, ?_⟩
      intro he
      injection he with he
      exact hcur he

theorem C8_search_witness :
    (searchQuotes exSearchEnv "ap" false false false false).searchedDataSources
      = getDataSources exSearchEnv false false false :=
  (C8_search exSearchEnv "ap" false false false false (by decide)).1

theorem mem_filteredSymbols (env : QuoteEnv) (ds : String) (b : Bool)
    (ids : List AssetProfileIdentifier) (s : String) :
    s ∈ filteredSymbols env ds b ids ↔
      ∃ it ∈ ids, it.symbol = s ∧ keepSymbol env ds b s = true := by
  unfold filteredSymbols
  rw [List.mem_map]
  constructor
  · rintro ⟨it, hit, rfl⟩
    rw [List.mem_filter] at hit
    exact ⟨it, hit.1, rfl, hit.2⟩
  · rintro ⟨it, hit, hsym, hk⟩
    refine ⟨it, ?_, hsym⟩
    rw [List.mem_filter]
    exact ⟨hit, hsym ▸ hk⟩

theorem groupByDataSource_snd (l : List AssetProfileIdentifier)
    (g : String × List AssetProfileIdentifier)
    (hg : g ∈ groupByDataSource l) :
    g.2 = l.filter (fun it => it.dataSource == g.1) := by
  unfold groupByDataSource at hg
  rw [List.mem_map] at hg
  obtain ⟨ds, _, rfl⟩ := hg
  rfl

theorem itemsToFetchOf_mem (env : QuoteEnv) (u : Bool)
    (items : List AssetProfileIdentifier) (it : AssetProfileIdentifier) :
    it ∈ itemsToFetchOf env u items ↔
      it ∈ items ∧ (cacheHit env u it).isNone = true := by
  unfold itemsToFetchOf
  rw [cachePhase_snd]
  exact List.mem_filter

theorem lookup_initialResponse_ne (env : QuoteEnv)
    (items : List AssetProfileIdentifier) (s : String)
    (hs : s ≠ env.DEFAULT_CURRENCY ++ "USX") :
    List.lookup s (initialResponse env items) = none := by
  unfold initialResponse
  split
  · have hb : (s == env.DEFAULT_CURRENCY ++ "USX") = false := by simp [hs]
    simp [List.lookup, hb]
  · rfl

/-- C6: with the subscription feature enabled and a Basic user, every
non-currency symbol requested only from premium data providers is excluded
from the upstream fetch (it occurs in no upstream request) and is in the
final response only when the cache served it (with no cache hit its lookup
is `none`); currency symbols are exempt from the premium branch of the
filter. -/
theorem C6_premium_gating (env : QuoteEnv)
    (items : List AssetProfileIdentifier) (useCache : Bool) (s : String)
    (hncur : env.isCurrency (env.getCurrencyFromSymbol s) = false)
    (hflag : env.ENABLE_FEATURE_SUBSCRIPTION = true)
    (hprem : ∀ it ∈ items, it.symbol = s → env.isPremium it.dataSource = true)
    (hcoh : ∀ ds syms e, e ∈ env.fetchQuotes ds syms → e.1 ∈ syms)
    (husx : s ≠ env.DEFAULT_CURRENCY ++ "USX")
    (hder : ∀ d ∈ env.DERIVED_CURRENCIES,
      env.DEFAULT_CURRENCY ++ d.currency ≠ s)
    (st : QuoteState) (h : getQuotes env items useCache true = Except.ok st) :
    (∀ call ∈ st.fetchCalls, s ∉ call.2) ∧
    ((∀ it ∈ items, it.symbol = s → cacheHit env useCache it = none) →
      List.lookup s st.response = none) ∧
    (∀ ds sym, env.isCurrency (env.getCurrencyFromSymbol sym) = true →
      keepSymbol env ds true sym =
        !(env.isDerivedCurrency (env.getCurrencyFromSymbol sym))) := by
  have hnotfil : ∀ g ∈ groupByDataSource (itemsToFetchOf env useCache items),
      s ∉ filteredSymbols env g.1 true g.2 := by
    intro g hg hmem
    rw [mem_filteredSymbols] at hmem
    obtain ⟨it, hit, hsym, hk⟩ := hmem
    rw [groupByDataSource_snd _ g hg, List.mem_filter] at hit
    have hds : it.dataSource = g.1 := by
      have := hit.2
      simpa using this
    have hin : it ∈ items :=
      ((itemsToFetchOf_mem env useCache items it).mp hit.1).1
    have hp : env.isPremium g.1 = true := hds ▸ hprem it hin hsym
    unfold keepSymbol at hk
    rw [if_neg (by rw [hncur]; exact Bool.false_ne_true)] at hk
    rw [if_pos (by rw [hp, hflag]; rfl)] at hk
    exact Bool.false_ne_true hk
  refine ⟨?_, ?_, ?_⟩
  · intro call hcall hs
    rw [getQuotes_fetchCalls env items useCache true st h] at hcall
    unfold plannedCalls at hcall
    rw [List.mem_flatMap] at hcall
    obtain ⟨g, hg, hcall⟩ := hcall
    rw [List.mem_map] at hcall
    obtain ⟨c, hc, rfl⟩ := hcall
    exact hnotfil g hg (chunkList_mem_subset _ _ c hc s hs)
  · intro hmiss
    have hl := getQuotes_lookup env items useCache true s hder ?_ st h
    · rw [hl, cachePhase_fst_preserve env useCache items s _ hmiss,
        lookup_initialResponse_ne env items s husx]
    · intro g hg c hc e he hes
      exact hnotfil g hg
        (chunkList_mem_subset _ _ c hc s (hes ▸ hcoh g.1 c e he))
  · intro ds sym hcur
    unfold keepSymbol
    rw [if_pos (by rw [hcur])]

theorem C6_premium_gating_witness :
    List.lookup "XXX"
      (⟨[], [], [], []⟩ : QuoteState).response = none :=
  (C6_premium_gating exEnvC6 [⟨"PREM", "XXX"⟩] true "XXX" (by decide)
    rfl
    (by
      intro it hit hsym
      rw [List.mem_singleton] at hit
      subst hit
      rfl)
    (by
      intro ds syms e he
      simp only [exEnvC6, exEnvBase, List.mem_map] at he
      obtain ⟨x, hx, rfl⟩ := he
      exact hx)
    (by decide) (by decide) ⟨[], [], [], []⟩ (by rfl)).2.1
    (by
      intro it hit hsym
      rw [List.mem_singleton] at hit
      subst hit
      rfl)

theorem lookup_eq_none_of_not_mem_keys {β : Type} (l : List (String × β))
    (k : String) (h : k ∉ l.map Prod.fst) : List.lookup k l = none := by
  induction l with
  | nil => rfl
  | cons e l ih =>
    obtain ⟨k1, v1⟩ := e
    rw [List.map_cons, List.mem_cons] at h
    push_neg at h
    have hb : (k == k1) = false := by simpa using h.1
    simp only [List.lookup, hb]
    exact ih h.2

theorem find?_key_unique {β : Type} (l : List (String × β)) (k : String)
    (v : β) (hall : ∀ e ∈ l, e.1 = k → e = (k, v))
    (hex : ∃ e ∈ l, e.1 = k) :
    l.find? (fun e => e.1 == k) = some (k, v) := by
  induction l with
  | nil =>
    obtain ⟨e, he, _⟩ := hex
    simp at he
  | cons e l ih =>
    by_cases hk : e.1 = k
    · rw [List.find?_cons_of_pos _ (by simp [hk])]
      rw [hall e (List.mem_cons_self e l) hk]
    · rw [List.find?_cons_of_neg _ (by simp [hk])]
      refine ih (fun e' he' hk' => hall e' (List.mem_cons_of_mem _ he') hk') ?_
      obtain ⟨e', he', hk'⟩ := hex
      rcases List.mem_cons.mp he' with rfl | he'
      · exact absurd hk' hk
      · exact ⟨e', he', hk'⟩

theorem histFold_inv (env : HistEnv)
    (allData : List (String × Option HistData))
    (P : List (String × Option HistData) → Prop)
    (l : List (String × Option HistData))
    (hstep : ∀ res e, e ∈ l → P res → P (histStep env allData res e)) :
    ∀ res, P res → P (List.foldl (histStep env allData) res l) := by
  induction l with
  | nil => intro res h; exact h
  | cons e l ih =>
    intro res h
    rw [List.foldl_cons]
    exact ih (fun r e' he' => hstep r e' (List.mem_cons_of_mem _ he')) _
      (hstep res e (List.mem_cons_self e l) h)

theorem histStep_lookup_preserve (env : HistEnv)
    (allData res : List (String × Option HistData))
    (e : String × Option HistData) (k : String) (hne : e.1 ≠ k)
    (hder : ∀ d ∈ env.DERIVED_CURRENCIES,
      env.DEFAULT_CURRENCY ++ d.currency ≠ k) :
    List.lookup k (histStep env allData res e) = List.lookup k res := by
  cases hf : env.DERIVED_CURRENCIES.find?
      (fun d => env.DEFAULT_CURRENCY ++ d.rootCurrency == e.1) with
  | none =>
    simp only [histStep, hf]
    exact lookup_setKey_ne _ _ _ _ (Ne.symm hne)
  | some d =>
    have hd := List.mem_of_find?_eq_some hf
    simp only [histStep, hf]
    rw [lookup_setKey_ne _ _ _ _ (Ne.symm hne),
      lookup_setKey_ne _ _ _ _ (Ne.symm (hder d hd))]

theorem histAssemble_lookup_const (env : HistEnv)
    (allData : List (String × Option HistData)) (k : String)
    (v : Option HistData)
    (hder : ∀ d ∈ env.DERIVED_CURRENCIES,
      env.DEFAULT_CURRENCY ++ d.currency ≠ k)
    (hall : ∀ e ∈ allData, e.1 = k → e.2 = v)
    (hex : ∃ e ∈ allData, e.1 = k) :
    List.lookup k (histAssemble env allData) = some v := by
  obtain ⟨e0, he0, hk0⟩ := hex
  obtain ⟨l₁, l₂, rfl⟩ := List.append_of_mem he0
  unfold histAssemble
  rw [List.foldl_append, List.foldl_cons]
  refine histFold_inv env _ (fun res => List.lookup k res = some v) l₂
    ?_ _ ?_
  · intro res e he hres
    by_cases hk : e.1 = k
    · have hv : e.2 = v := hall e (by simp [he]) hk
      show List.lookup k (histStep env (l₁ ++ e0 :: l₂) res e) = some v
      cases hf : env.DERIVED_CURRENCIES.find?
          (fun d => env.DEFAULT_CURRENCY ++ d.rootCurrency == e.1) with
      | none =>
        simp only [histStep, hf]
        rw [hk, hv]
        exact lookup_setKey_self _ _ _
      | some d =>
        simp only [histStep, hf]
        rw [hk, hv]
        exact lookup_setKey_self _ _ _
    · exact (histStep_lookup_preserve env (l₁ ++ e0 :: l₂) res e k hk
        hder).trans hres
  · have hv : e0.2 = v := hall e0 (by simp) hk0
    cases hf : env.DERIVED_CURRENCIES.find?
        (fun d => env.DEFAULT_CURRENCY ++ d.rootCurrency == e0.1) with
    | none =>
      simp only [histStep, hf]
      rw [hk0, hv]
      exact lookup_setKey_self _ _ _
    | some d =>
      simp only [histStep, hf]
      rw [hk0, hv]
      exact lookup_setKey_self _ _ _

theorem histAssemble_lookup_derived (env : HistEnv)
    (allData : List (String × Option HistData)) (d : DerivedCurrency)
    (hfind : env.DERIVED_CURRENCIES.find?
        (fun d' => env.DEFAULT_CURRENCY ++ d'.rootCurrency ==
          env.DEFAULT_CURRENCY ++ d.rootCurrency) = some d)
    (hcur : ∀ d' ∈ env.DERIVED_CURRENCIES,
      env.DEFAULT_CURRENCY ++ d'.currency = env.DEFAULT_CURRENCY ++ d.currency
        → d' = d)
    (hnok : ∀ e ∈ allData, e.1 ≠ env.DEFAULT_CURRENCY ++ d.currency)
    (hroot_ne : env.DEFAULT_CURRENCY ++ d.rootCurrency ≠
      env.DEFAULT_CURRENCY ++ d.currency)
    (hex : ∃ e ∈ allData, e.1 = env.DEFAULT_CURRENCY ++ d.rootCurrency) :
    List.lookup (env.DEFAULT_CURRENCY ++ d.currency)
        (histAssemble env allData) =
      some (some (transformHistoricalData allData
        (env.DEFAULT_CURRENCY ++ d.rootCurrency) d.factor)) := by
  obtain ⟨e0, he0, hk0⟩ := hex
  obtain ⟨l₁, l₂, rfl⟩ := List.append_of_mem he0
  unfold histAssemble
  rw [List.foldl_append, List.foldl_cons]
  refine histFold_inv env _
    (fun res => List.lookup (env.DEFAULT_CURRENCY ++ d.currency) res =
      some (some (transformHistoricalData (l₁ ++ e0 :: l₂)
        (env.DEFAULT_CURRENCY ++ d.rootCurrency) d.factor))) l₂ ?_ _ ?_
  · intro res e he hres
    have hne : e.1 ≠ env.DEFAULT_CURRENCY ++ d.currency :=
      hnok e (by simp [he])
    cases hf : env.DERIVED_CURRENCIES.find?
        (fun d' => env.DEFAULT_CURRENCY ++ d'.rootCurrency == e.1) with
    | none =>
      simp only [histStep, hf]
      rw [lookup_setKey_ne _ _ _ _ (Ne.symm hne)]
      exact hres
    | some dd =>
      by_cases hKd : env.DEFAULT_CURRENCY ++ dd.currency =
          env.DEFAULT_CURRENCY ++ d.currency
      · have hdd : dd = d := hcur dd (List.mem_of_find?_eq_some hf) hKd
        subst hdd
        simp only [histStep, hf]
        rw [lookup_setKey_ne _ _ _ _ (Ne.symm hne), lookup_setKey_self]
      · simp only [histStep, hf]
        rw [lookup_setKey_ne _ _ _ _ (Ne.symm hne),
          lookup_setKey_ne _ _ _ _ (Ne.symm hKd)]
        exact hres
  · have hf : env.DERIVED_CURRENCIES.find?
        (fun d' => env.DEFAULT_CURRENCY ++ d'.rootCurrency == e0.1) =
          some d := by
      rw [hk0]
      exact hfind
    simp only [histStep, hf]
    have hKne : env.DEFAULT_CURRENCY ++ d.currency ≠ e0.1 := by
      rw [hk0]
      exact Ne.symm hroot_ne
    rw [lookup_setKey_ne _ _ _ _ hKne, ← hk0, lookup_setKey_self]

theorem swapFold_inv (env : HistEnv) (P : List AssetProfileIdentifier → Prop)
    (l : List DerivedCurrency)
    (hstep : ∀ acc d, d ∈ l → P acc → P (swapStep env acc d)) :
    ∀ acc, P acc → P (List.foldl (swapStep env) acc l) := by
  induction l with
  | nil => intro acc h; exact h
  | cons d l ih =>
    intro acc h
    rw [List.foldl_cons]
    exact ih (fun a d' hd' => hstep a d' (List.mem_cons_of_mem _ hd')) _
      (hstep acc d (List.mem_cons_self d l) h)

theorem swapStep_cases (env : HistEnv) (ids : List AssetProfileIdentifier)
    (d : DerivedCurrency) :
    swapStep env ids d = ids ∨
    swapStep env ids d =
      (ids.filter
        (fun it => it.symbol != env.DEFAULT_CURRENCY ++ d.currency)) ++
        [⟨env.exchangeRateDataSource,
          env.DEFAULT_CURRENCY ++ d.rootCurrency⟩] := by
  unfold swapStep
  split
  · exact Or.inr rfl
  · exact Or.inl rfl

theorem swapStep_pos (env : HistEnv) (ids : List AssetProfileIdentifier)
    (d : DerivedCurrency)
    (h : (⟨env.exchangeRateDataSource,
      env.DEFAULT_CURRENCY ++ d.currency⟩ : AssetProfileIdentifier) ∈ ids) :
    swapStep env ids d =
      (ids.filter
        (fun it => it.symbol != env.DEFAULT_CURRENCY ++ d.currency)) ++
        [⟨env.exchangeRateDataSource,
          env.DEFAULT_CURRENCY ++ d.rootCurrency⟩] := by
  unfold swapStep
  rw [if_pos]
  rw [List.any_eq_true]
  exact ⟨_, h, by simp⟩

theorem mem_histAllData_keys (env : HistEnv)
    (ids : List AssetProfileIdentifier) (e : String × Option HistData)
    (he : e ∈ histAllData env ids) : ∃ it ∈ ids, it.symbol = e.1 := by
  unfold histAllData at he
  rw [List.mem_map] at he
  obtain ⟨it, hit, rfl⟩ := he
  rw [List.mem_filter] at hit
  split <;> exact ⟨it, hit.1, rfl⟩

theorem mem_histAllData_of (env : HistEnv)
    (ids : List AssetProfileIdentifier) (it : AssetProfileIdentifier)
    (hit : it ∈ ids) (hch : env.canHandle it.dataSource it.symbol = true)
    (hnu : it.symbol ≠ env.DEFAULT_CURRENCY ++ "USX") :
    (it.symbol,
      List.lookup it.symbol (env.fetchHistorical it.dataSource it.symbol)) ∈
      histAllData env ids := by
  unfold histAllData
  rw [List.mem_map]
  refine ⟨it, List.mem_filter.mpr ⟨hit, hch⟩, ?_⟩
  rw [if_neg (by simp [hnu])]

theorem mem_histAllData_usx (env : HistEnv)
    (ids : List AssetProfileIdentifier) (it : AssetProfileIdentifier)
    (hit : it ∈ ids) (hch : env.canHandle it.dataSource it.symbol = true)
    (hu : it.symbol = env.DEFAULT_CURRENCY ++ "USX") :
    (it.symbol,
      some (env.daysOfInterval.map
        (fun dt => (dt, (⟨some 100⟩ : HistEntry))))) ∈
      histAllData env ids := by
  unfold histAllData
  rw [List.mem_map]
  refine ⟨it, List.mem_filter.mpr ⟨hit, hch⟩, ?_⟩
  rw [if_pos (by simp [hu])]

theorem histAllData_usx_val (env : HistEnv)
    (ids : List AssetProfileIdentifier) (e : String × Option HistData)
    (he : e ∈ histAllData env ids)
    (hk : e.1 = env.DEFAULT_CURRENCY ++ "USX") :
    e.2 = some (env.daysOfInterval.map
      (fun dt => (dt, (⟨some 100⟩ : HistEntry)))) := by
  unfold histAllData at he
  rw [List.mem_map] at he
  obtain ⟨it, hit, rfl⟩ := he
  by_cases hu : (it.symbol == env.DEFAULT_CURRENCY ++ "USX") = true
  · rw [if_pos hu]
  · rw [if_neg hu] at hk ⊢
    exact absurd (by simpa using hk) (by simpa using hu)

theorem lookup_filterMap_scale (f : Rat) (date : String) :
    ∀ (l : HistData), ((l.map Prod.fst).Nodup) →
    List.lookup date (l.filterMap
      (fun e => e.2.marketPrice.map
        (fun p => (e.1, (⟨some (f * p)⟩ : HistEntry))))) =
      (List.lookup date l).bind
        (fun en => en.marketPrice.map
          (fun p => (⟨some (f * p)⟩ : HistEntry))) := by
  intro l
  induction l with
  | nil => intro _; rfl
  | cons e l ih =>
    intro hnd
    obtain ⟨d0, en⟩ := e
    rw [List.map_cons, List.nodup_cons] at hnd
    cases hmp : en.marketPrice with
    | some p =>
      rw [List.filterMap_cons]
      simp only [hmp, Option.map_some']
      by_cases hdd : date = d0
      · subst hdd
        simp [List.lookup, hmp]
      · have hb : (date == d0) = false := by simp [hdd]
        simp only [List.lookup, hb]
        exact ih hnd.2
    | none =>
      rw [List.filterMap_cons]
      simp only [hmp, Option.map_none']
      by_cases hdd : date = d0
      · subst hdd
        rw [lookup_eq_none_of_not_mem_keys]
        · simp [List.lookup, hmp]
        · intro hmem
          apply hnd.1
          rw [List.mem_map] at hmem
          obtain ⟨b, hb, hfst⟩ := hmem
          rw [List.mem_filterMap] at hb
          obtain ⟨a, ha, hab⟩ := hb
          cases hap : a.2.marketPrice with
          | none => rw [hap] at hab; exact Option.noConfusion hab
          | some q =>
            rw [hap] at hab
            injection hab with hab
            rw [List.mem_map]
            refine ⟨a, ha, ?_⟩
            rw [← hab] at hfst
            exact hfst
      · have hb : (date == d0) = false := by simp [hdd]
        simp only [List.lookup, hb]
        exact ih hnd.2

theorem lookup_transform (allData : List (String × Option HistData))
    (k : String) (f : Rat) (date : String)
    (hnd : ((((allData.find? (fun e => e.1 == k)).bind
      (fun e => e.2)).getD []).map Prod.fst).Nodup) :
    List.lookup date (transformHistoricalData allData k f) =
      (List.lookup date (((allData.find? (fun e => e.1 == k)).bind
        (fun e => e.2)).getD [])).bind
        (fun en => en.marketPrice.map
          (fun p => (⟨some (f * p)⟩ : HistEntry))) := by
  unfold transformHistoricalData
  exact lookup_filterMap_scale f date _ hnd

theorem swapDerived_spec (env : HistEnv) (ids : List AssetProfileIdentifier)
    (d : DerivedCurrency) (hnd : env.DERIVED_CURRENCIES.Nodup)
    (hd : d ∈ env.DERIVED_CURRENCIES)
    (hreq : (⟨env.exchangeRateDataSource,
      env.DEFAULT_CURRENCY ++ d.currency⟩ : AssetProfileIdentifier) ∈ ids)
    (hcur_d : ∀ d' ∈ env.DERIVED_CURRENCIES, d' ≠ d →
      env.DEFAULT_CURRENCY ++ d'.currency ≠
        env.DEFAULT_CURRENCY ++ d.currency)
    (hroot_ne : ∀ d' ∈ env.DERIVED_CURRENCIES,
      env.DEFAULT_CURRENCY ++ d'.rootCurrency ≠
        env.DEFAULT_CURRENCY ++ d.currency)
    (hcur_root : ∀ d' ∈ env.DERIVED_CURRENCIES,
      env.DEFAULT_CURRENCY ++ d'.currency ≠
        env.DEFAULT_CURRENCY ++ d.rootCurrency)
    (hroots : ∀ d' ∈ env.DERIVED_CURRENCIES, d' ≠ d →
      env.DEFAULT_CURRENCY ++ d'.rootCurrency ≠
        env.DEFAULT_CURRENCY ++ d.rootCurrency)
    (hids_root : ∀ it ∈ ids,
      it.symbol = env.DEFAULT_CURRENCY ++ d.rootCurrency →
      it = ⟨env.exchangeRateDataSource,
        env.DEFAULT_CURRENCY ++ d.rootCurrency⟩) :
    (∀ it ∈ swapDerived env ids,
      it.symbol ≠ env.DEFAULT_CURRENCY ++ d.currency) ∧
    ((⟨env.exchangeRateDataSource, env.DEFAULT_CURRENCY ++ d.rootCurrency⟩ :
      AssetProfileIdentifier) ∈ swapDerived env ids) ∧
    (∀ it ∈ swapDerived env ids,
      it.symbol = env.DEFAULT_CURRENCY ++ d.rootCurrency →
      it = ⟨env.exchangeRateDataSource,
        env.DEFAULT_CURRENCY ++ d.rootCurrency⟩) := by
  obtain ⟨l₁, l₂, hsplit⟩ := List.append_of_mem hd
  have hnd' := hsplit ▸ hnd
  rw [List.nodup_append] at hnd'
  have hd_not_l₁ : d ∉ l₁ := fun h =>
    hnd'.2.2 h (List.mem_cons_self d l₂)
  have hd_not_l₂ : d ∉ l₂ := (List.nodup_cons.mp hnd'.2.1).1
  have hl₁sub : ∀ d' ∈ l₁, d' ∈ env.DERIVED_CURRENCIES := fun d' h =>
    hsplit ▸ List.mem_append_left _ h
  have hl₂sub : ∀ d' ∈ l₂, d' ∈ env.DERIVED_CURRENCIES := fun d' h =>
    hsplit ▸ List.mem_append_right _ (List.mem_cons_of_mem _ h)
  unfold swapDerived
  rw [hsplit, List.foldl_append, List.foldl_cons]
  have phaseA : (⟨env.exchangeRateDataSource,
        env.DEFAULT_CURRENCY ++ d.currency⟩ : AssetProfileIdentifier) ∈
        List.foldl (swapStep env) ids l₁ ∧
      (∀ it ∈ List.foldl (swapStep env) ids l₁,
        it.symbol = env.DEFAULT_CURRENCY ++ d.rootCurrency →
        it = ⟨env.exchangeRateDataSource,
          env.DEFAULT_CURRENCY ++ d.rootCurrency⟩) := by
    refine swapFold_inv env
      (fun acc => (⟨env.exchangeRateDataSource,
          env.DEFAULT_CURRENCY ++ d.currency⟩ : AssetProfileIdentifier) ∈
            acc ∧
        (∀ it ∈ acc,
          it.symbol = env.DEFAULT_CURRENCY ++ d.rootCurrency →
          it = ⟨env.exchangeRateDataSource,
            env.DEFAULT_CURRENCY ++ d.rootCurrency⟩)) l₁ ?_ ids
      ⟨hreq, hids_root⟩
    intro acc d' hd' ⟨hin, hroot⟩
    have hd'mem := hl₁sub d' hd'
    have hd'ne : d' ≠ d := fun he => hd_not_l₁ (he ▸ hd')
    rcases swapStep_cases env acc d' with hcase | hcase
    · rw [hcase]
      exact ⟨hin, hroot⟩
    · rw [hcase]
      constructor
      · refine List.mem_append_left _ ?_
        rw [List.mem_filter]
        refine ⟨hin, ?_⟩
        simp only [bne_iff_ne, ne_eq]
        show ¬ env.DEFAULT_CURRENCY ++ d.currency =
          env.DEFAULT_CURRENCY ++ d'.currency
        exact Ne.symm (hcur_d d' hd'mem hd'ne)
      · intro it hit hsym
        rcases List.mem_append.mp hit with hit | hit
        · exact hroot it (List.mem_of_mem_filter hit) hsym
        · rw [List.mem_singleton] at hit
          subst hit
          exact absurd hsym (hroots d' hd'mem hd'ne)
  have phaseB := swapStep_pos env (List.foldl (swapStep env) ids l₁) d
    phaseA.1
  have hstB1 : ∀ it ∈ swapStep env (List.foldl (swapStep env) ids l₁) d,
      it.symbol ≠ env.DEFAULT_CURRENCY ++ d.currency := by
    rw [phaseB]
    intro it hit
    rcases List.mem_append.mp hit with hit | hit
    · have := List.of_mem_filter hit
      simpa using this
    · rw [List.mem_singleton] at hit
      subst hit
      exact hroot_ne d hd
  have hstB2 : (⟨env.exchangeRateDataSource,
      env.DEFAULT_CURRENCY ++ d.rootCurrency⟩ : AssetProfileIdentifier) ∈
      swapStep env (List.foldl (swapStep env) ids l₁) d := by
    rw [phaseB]
    exact List.mem_append_right _ (List.mem_singleton.mpr rfl)
  have hstB3 : ∀ it ∈ swapStep env (List.foldl (swapStep env) ids l₁) d,
      it.symbol = env.DEFAULT_CURRENCY ++ d.rootCurrency →
      it = ⟨env.exchangeRateDataSource,
        env.DEFAULT_CURRENCY ++ d.rootCurrency⟩ := by
    rw [phaseB]
    intro it hit hsym
    rcases List.mem_append.mp hit with hit | hit
    · exact phaseA.2 it (List.mem_of_mem_filter hit) hsym
    · rw [List.mem_singleton] at hit
      subst hit
      rfl
  refine swapFold_inv env
    (fun acc =>
      (∀ it ∈ acc, it.symbol ≠ env.DEFAULT_CURRENCY ++ d.currency) ∧
      ((⟨env.exchangeRateDataSource,
        env.DEFAULT_CURRENCY ++ d.rootCurrency⟩ : AssetProfileIdentifier) ∈
          acc) ∧
      (∀ it ∈ acc, it.symbol = env.DEFAULT_CURRENCY ++ d.rootCurrency →
        it = ⟨env.exchangeRateDataSource,
          env.DEFAULT_CURRENCY ++ d.rootCurrency⟩)) l₂ ?_ _
    ⟨hstB1, hstB2, hstB3⟩
  intro acc d' hd' ⟨h1, h2, h3⟩
  have hd'mem := hl₂sub d' hd'
  have hd'ne : d' ≠ d := fun he => hd_not_l₂ (he ▸ hd')
  rcases swapStep_cases env acc d' with hcase | hcase
  · rw [hcase]
    exact ⟨h1, h2, h3⟩
  · rw [hcase]
    refine ⟨?_, ?_, ?_⟩
    · intro it hit
      rcases List.mem_append.mp hit with hit | hit
      · exact h1 it (List.mem_of_mem_filter hit)
      · rw [List.mem_singleton] at hit
        subst hit
        exact hroot_ne d' hd'mem
    · refine List.mem_append_left _ ?_
      rw [List.mem_filter]
      refine ⟨h2, ?_⟩
      simp only [bne_iff_ne, ne_eq]
      show ¬ env.DEFAULT_CURRENCY ++ d.rootCurrency =
        env.DEFAULT_CURRENCY ++ d'.currency
      exact Ne.symm (hcur_root d' hd'mem)
    · intro it hit hsym
      rcases List.mem_append.mp hit with hit | hit
      · exact h3 it (List.mem_of_mem_filter hit) hsym
      · rw [List.mem_singleton] at hit
        subst hit
        exact absurd hsym (hroots d' hd'mem hd'ne)

theorem swapDerived_mem_of (env : HistEnv)
    (ids : List AssetProfileIdentifier) (it : AssetProfileIdentifier)
    (hit : it ∈ ids)
    (hne : ∀ d ∈ env.DERIVED_CURRENCIES,
      env.DEFAULT_CURRENCY ++ d.currency ≠ it.symbol) :
    it ∈ swapDerived env ids := by
  unfold swapDerived
  refine swapFold_inv env (fun acc => it ∈ acc) _ ?_ ids hit
  intro acc d hd hin
  rcases swapStep_cases env acc d with hcase | hcase
  · rw [hcase]
    exact hin
  · rw [hcase]
    refine List.mem_append_left _ (List.mem_filter.mpr ⟨hin, ?_⟩)
    simp only [bne_iff_ne, ne_eq]
    exact fun he => hne d hd he.symm

/-- C9 counterexample: with a parseable cached entry stored under the `USX`
pair's quote key, `getQuotes` returns the cached quote (price 42, state
`closed`) for the `USX` pair, not the fixed price-100 open quote the claim
asserts: the cache loop of lines 429-448 runs after the `USX` shortcut of
lines 416-427 and overwrites it. -/
theorem C9_counterexample :
    (getQuotes exEnvC9 [⟨"ECB", "USDUSX"⟩] true false).toOption.map
        (fun st => List.lookup "USDUSX" st.response) =
      some (some ⟨"USX", "ECB", some 42, "closed"⟩) ∧
    ¬ ((⟨"USX", "ECB", some 42, "closed"⟩ :
        IDataProviderResponse).marketState = "open") := by
  constructor
  · rfl
  · intro hc
    exact absurd hc (by decide)

/-- C9 (amended): the `USX` pair is never requested upstream and, provided
the cache holds no parseable entry under its quote key (the skip list means
`getQuotes` itself never writes one), the response maps it to the fixed
quote with price 100 and state `open`; `getHistoricalRaw` maps it to the
fixed series assigning price 100 to every day of the interval. -/
theorem C9_usx_fixed (env : QuoteEnv) (items : List AssetProfileIdentifier)
    (useCache userIsBasic : Bool)
    (hreq : ∃ it ∈ items, it.symbol = env.DEFAULT_CURRENCY ++ "USX")
    (hnohit : ∀ it ∈ items, it.symbol = env.DEFAULT_CURRENCY ++ "USX" →
      cacheHit env useCache it = none)
    (hcur : env.isCurrency
      (env.getCurrencyFromSymbol (env.DEFAULT_CURRENCY ++ "USX")) = true)
    (hderc : env.isDerivedCurrency
      (env.getCurrencyFromSymbol (env.DEFAULT_CURRENCY ++ "USX")) = true)
    (hcoh : ∀ ds syms e, e ∈ env.fetchQuotes ds syms → e.1 ∈ syms)
    (hder : ∀ d ∈ env.DERIVED_CURRENCIES,
      env.DEFAULT_CURRENCY ++ d.currency ≠ env.DEFAULT_CURRENCY ++ "USX")
    (st : QuoteState)
    (h : getQuotes env items useCache userIsBasic = Except.ok st)
    (henv : HistEnv) (idsH : List AssetProfileIdentifier)
    (itH : AssetProfileIdentifier) (hitH : itH ∈ idsH)
    (hSymH : itH.symbol = henv.DEFAULT_CURRENCY ++ "USX")
    (hchH : ∀ ds, henv.canHandle ds (henv.DEFAULT_CURRENCY ++ "USX") = true)
    (hderH : ∀ d ∈ henv.DERIVED_CURRENCIES,
      henv.DEFAULT_CURRENCY ++ d.currency ≠
        henv.DEFAULT_CURRENCY ++ "USX") :
    List.lookup (env.DEFAULT_CURRENCY ++ "USX") st.response =
      some (usxResponse env) ∧
    (∀ call ∈ st.fetchCalls, env.DEFAULT_CURRENCY ++ "USX" ∉ call.2) ∧
    List.lookup (henv.DEFAULT_CURRENCY ++ "USX")
        (getHistoricalRaw henv idsH) =
      some (some (henv.daysOfInterval.map
        (fun dt => (dt, (⟨some 100⟩ : HistEntry))))) := by
  have hnotfil : ∀ g ∈ groupByDataSource (itemsToFetchOf env useCache items),
      env.DEFAULT_CURRENCY ++ "USX" ∉
        filteredSymbols env g.1 userIsBasic g.2 := by
    intro g hg hmem
    rw [mem_filteredSymbols] at hmem
    obtain ⟨it, _, _, hk⟩ := hmem
    unfold keepSymbol at hk
    rw [if_pos (by rw [hcur])] at hk
    rw [hderc] at hk
    exact Bool.false_ne_true hk
  refine ⟨?_, ?_, ?_⟩
  · have hl := getQuotes_lookup env items useCache userIsBasic
      (env.DEFAULT_CURRENCY ++ "USX") hder ?_ st h
    · rw [hl, cachePhase_fst_preserve env useCache items _ _ hnohit]
      unfold initialResponse
      obtain ⟨it, hit, hsym⟩ := hreq
      rw [if_pos (List.any_eq_true.mpr ⟨it, hit, by simp [hsym]⟩)]
      simp [List.lookup]
    · intro g hg c hc e he hes
      exact hnotfil g hg
        (chunkList_mem_subset _ _ c hc _ (hes ▸ hcoh g.1 c e he))
  · intro call hcall hs
    rw [getQuotes_fetchCalls env items useCache userIsBasic st h] at hcall
    unfold plannedCalls at hcall
    rw [List.mem_flatMap] at hcall
    obtain ⟨g, hg, hcall⟩ := hcall
    rw [List.mem_map] at hcall
    obtain ⟨c, hc, rfl⟩ := hcall
    exact hnotfil g hg (chunkList_mem_subset _ _ c hc _ hs)
  · unfold getHistoricalRaw
    refine histAssemble_lookup_const henv _ _ _ hderH
      (fun e he hk => histAllData_usx_val henv _ e he hk) ?_
    have h1 : itH ∈ swapDerived henv idsH :=
      swapDerived_mem_of henv idsH itH hitH
        (fun d hd => hSymH ▸ hderH d hd)
    have h2 : itH ∈ dedupKeepFirst (swapDerived henv idsH) :=
      (mem_dedupKeepFirst itH _).mpr h1
    have h3 := mem_histAllData_usx henv _ itH h2
      (by rw [hSymH]; exact hchH itH.dataSource) hSymH
    exact ⟨_, h3, hSymH⟩

theorem C9_usx_fixed_witness :
    List.lookup "USDUSX"
      (⟨[("USDUSX", usxResponse exEnvBase)], [], [], []⟩ :
        QuoteState).response = some (usxResponse exEnvBase) :=
  (C9_usx_fixed exEnvBase [⟨"ECB", "USDUSX"⟩] true false
    ⟨⟨"ECB", "USDUSX"⟩, List.mem_singleton.mpr rfl, rfl⟩
    (by
      intro it hit hsym
      rw [List.mem_singleton] at hit
      subst hit
      rfl)
    (by decide) (by decide)
    (by
      intro ds syms e he
      simp only [exEnvBase, List.mem_map] at he
      obtain ⟨x, hx, rfl⟩ := he
      exact hx)
    (by decide)
    ⟨[("USDUSX", usxResponse exEnvBase)], [], [], []⟩ (by rfl)
    exHistEnv [⟨"ECB", "USDUSX"⟩] ⟨"ECB", "USDUSX"⟩
    (List.mem_singleton.mpr rfl) rfl (fun ds => rfl) (by decide)).1

theorem string_append_left_cancel {a b c : String} (h : a ++ b = a ++ c) :
    b = c := by
  have h2 := congrArg String.data h
  rw [String.data_append, String.data_append] at h2
  exact String.ext (List.append_cancel_left h2)

theorem mem_skipSymbols_of_derived (env : QuoteEnv) (d : DerivedCurrency)
    (hd : d ∈ env.DERIVED_CURRENCIES) :
    env.DEFAULT_CURRENCY ++ d.currency ∈ skipSymbols env := by
  unfold skipSymbols
  exact List.mem_append_left _
    (List.mem_map_of_mem (fun d' => env.DEFAULT_CURRENCY ++ d'.currency) hd)

theorem synthesizeDerived_lookup_fine (env : QuoteEnv) (ds : String)
    (result : List (String × IDataProviderResponse)) (sym : String)
    (resp : IDataProviderResponse) (st st' : QuoteState) (key : String)
    (hkey : ∀ d ∈ env.DERIVED_CURRENCIES,
      sym = env.DEFAULT_CURRENCY ++ d.rootCurrency →
      env.DEFAULT_CURRENCY ++ d.currency ≠ key)
    (h : synthesizeDerived env ds result sym resp st = Except.ok st') :
    List.lookup key st'.response = List.lookup key st.response := by
  refine foldlM_except_inv
    (fun t => List.lookup key t.response = List.lookup key st.response)
    _ _ ?_ h rfl
  intro t d t' hd hstep ht
  rcases derivedStep_ok env ds result sym resp t d t' hstep with
    h1 | ⟨rr, p, hsym, _, _, h1⟩
  · exact h1 ▸ ht
  · subst h1
    show List.lookup key
      (setKey t.response (env.DEFAULT_CURRENCY ++ d.currency)
        (derivedQuote d resp p)) = _
    rw [lookup_setKey_ne _ _ _ _ (Ne.symm (hkey d hd hsym))]
    exact ht

theorem synthesizeDerived_sets (env : QuoteEnv) (ds : String)
    (result : List (String × IDataProviderResponse)) (resp : IDataProviderResponse)
    (st st' : QuoteState) (d : DerivedCurrency) (p : Rat)
    (rr : IDataProviderResponse)
    (hd : d ∈ env.DERIVED_CURRENCIES)
    (hndc : (env.DERIVED_CURRENCIES.map
      (fun d' => d'.currency)).Nodup)
    (hlk : List.lookup (env.DEFAULT_CURRENCY ++ d.rootCurrency) result =
      some rr)
    (hmp : rr.marketPrice = some p)
    (h : synthesizeDerived env ds result
      (env.DEFAULT_CURRENCY ++ d.rootCurrency) resp st = Except.ok st') :
    List.lookup (env.DEFAULT_CURRENCY ++ d.currency) st'.response =
      some (derivedQuote d resp p) ∧
    (⟨ds, env.DEFAULT_CURRENCY ++ d.currency, derivedQuote d resp p,
      env.CACHE_QUOTES_TTL⟩ : CacheWrite) ∈ st'.cacheWrites := by
  have hndl : env.DERIVED_CURRENCIES.Nodup :=
    List.Nodup.of_map _ hndc
  obtain ⟨l₁, l₂, hsplit⟩ := List.append_of_mem hd
  have hd_not_l₂ : d ∉ l₂ := by
    rw [hsplit, List.nodup_append] at hndl
    exact (List.nodup_cons.mp hndl.2.1).1
  have hl₂sub : ∀ d' ∈ l₂, d' ∈ env.DERIVED_CURRENCIES := fun d' hx =>
    hsplit ▸ List.mem_append_right _ (List.mem_cons_of_mem _ hx)
  unfold synthesizeDerived at h
  rw [hsplit, List.foldlM_append] at h
  cases h1 : List.foldlM
      (derivedStep env ds result (env.DEFAULT_CURRENCY ++ d.rootCurrency)
        resp) st l₁ with
  | error e => rw [h1] at h; exact Except.noConfusion h
  | ok t1 =>
    rw [h1] at h
    replace h : List.foldlM
        (derivedStep env ds result (env.DEFAULT_CURRENCY ++ d.rootCurrency)
          resp) t1 (d :: l₂) = Except.ok st' := h
    rw [List.foldlM_cons] at h
    cases h2 : derivedStep env ds result
        (env.DEFAULT_CURRENCY ++ d.rootCurrency) resp t1 d with
    | error e => rw [h2] at h; exact Except.noConfusion h
    | ok t2 =>
      rw [h2] at h
      have ht2 : List.lookup (env.DEFAULT_CURRENCY ++ d.currency)
            t2.response = some (derivedQuote d resp p) ∧
          (⟨ds, env.DEFAULT_CURRENCY ++ d.currency, derivedQuote d resp p,
            env.CACHE_QUOTES_TTL⟩ : CacheWrite) ∈ t2.cacheWrites := by
        unfold derivedStep at h2
        rw [if_pos rfl] at h2
        split at h2
        · rename_i rr' hlk'
          rw [hlk] at hlk'
          injection hlk' with he
          subst he
          split at h2
          · rename_i p' hmp'
            rw [hmp] at hmp'
            injection hmp' with he2
            subst he2
            cases h2
            constructor
            · exact lookup_setKey_self _ _ _
            · exact List.mem_append_right _ (List.mem_singleton.mpr rfl)
          · exact Except.noConfusion h2
        · exact Except.noConfusion h2
      refine foldlM_except_inv
        (fun t => List.lookup (env.DEFAULT_CURRENCY ++ d.currency)
            t.response = some (derivedQuote d resp p) ∧
          (⟨ds, env.DEFAULT_CURRENCY ++ d.currency, derivedQuote d resp p,
            env.CACHE_QUOTES_TTL⟩ : CacheWrite) ∈ t.cacheWrites)
        _ _ ?_ h ht2
      intro t d'' t' hd'' hstep ht
      rcases derivedStep_ok env ds result _ resp t d'' t' hstep with
        h3 | ⟨rr', p', _, _, _, h3⟩
      · exact h3 ▸ ht
      · subst h3
        have hne : env.DEFAULT_CURRENCY ++ d''.currency ≠
            env.DEFAULT_CURRENCY ++ d.currency := by
          intro he
          have hcc : d''.currency = d.currency := string_append_left_cancel he
          have : d'' = d := List.inj_on_of_nodup_map hndc
            (hl₂sub d'' hd'') hd hcc
          exact hd_not_l₂ (this ▸ hd'')
        constructor
        · show List.lookup (env.DEFAULT_CURRENCY ++ d.currency)
            (setKey t.response (env.DEFAULT_CURRENCY ++ d''.currency)
              (derivedQuote d'' resp p')) = _
          rw [lookup_setKey_ne _ _ _ _ (Ne.symm hne)]
          exact ht.1
        · exact List.mem_append_left _ ht.2

theorem mem_of_lookup_assoc {β : Type} (l : List (String × β)) (k : String)
    (v : β) (h : List.lookup k l = some v) : (k, v) ∈ l := by
  induction l with
  | nil => exact Option.noConfusion h
  | cons e l ih =>
    rcases e with ⟨k₁, v₁⟩
    by_cases hk : k = k₁
    · subst hk
      have h2 : List.lookup k ((k, v₁) :: l) = some v₁ := by
        simp [List.lookup]
      rw [h2] at h
      injection h with h
      subst h
      exact List.mem_cons_self _ _
    · have hbeq : (k == k₁) = false := by simp [hk]
      have h2 : List.lookup k ((k₁, v₁) :: l) = List.lookup k l := by
        simp [List.lookup, hbeq]
      rw [h2] at h
      exact List.mem_cons_of_mem _ (ih h)

theorem foldlM_except_split {β σ : Type} (f : σ → β → Except Unit σ)
    (l₁ : List β) (e : β) (l₂ : List β) (st st' : σ)
    (h : List.foldlM f st (l₁ ++ e :: l₂) = Except.ok st') :
    ∃ t1 t2, List.foldlM f st l₁ = Except.ok t1 ∧
      f t1 e = Except.ok t2 ∧
      List.foldlM f t2 l₂ = Except.ok st' := by
  rw [List.foldlM_append] at h
  cases h1 : List.foldlM f st l₁ with
  | error e0 => rw [h1] at h; exact Except.noConfusion h
  | ok t1 =>
    rw [h1] at h
    replace h : List.foldlM f t1 (e :: l₂) = Except.ok st' := h
    rw [List.foldlM_cons] at h
    cases h2 : f t1 e with
    | error e0 => rw [h2] at h; exact Except.noConfusion h
    | ok t2 =>
      rw [h2] at h
      exact ⟨t1, t2, h1 ▸ rfl, h2, h⟩

/-- **C3**: in `getQuotes`, whenever the provider result holds a numeric quote
under the root-currency pair of a derived currency `d`, the processed response
maps the derived pair to the root entry spread with the derived currency, the
exactly multiplied price and market state `open`, and that synthetic entry is
also written to the cache with the configured TTL; derived-currency pair
symbols are excluded from the upstream request by the symbol filter, and
provider result entries keyed by a skip-list symbol are skipped unchanged. -/
theorem C3_derived_synthesis (env : QuoteEnv) (ds : String)
    (result : List (String × IDataProviderResponse))
    (st st' : QuoteState) (d : DerivedCurrency)
    (rootResp : IDataProviderResponse) (p : Rat)
    (b : Bool) (ids : List AssetProfileIdentifier) (sym : String)
    (e : String × IDataProviderResponse)
    (hd : d ∈ env.DERIVED_CURRENCIES)
    (hndc : (env.DERIVED_CURRENCIES.map (fun d' => d'.currency)).Nodup)
    (hkeys : (result.map Prod.fst).Nodup)
    (hlk : List.lookup (env.DEFAULT_CURRENCY ++ d.rootCurrency) result =
      some rootResp)
    (hmp : rootResp.marketPrice = some p)
    (hroot : env.DEFAULT_CURRENCY ++ d.rootCurrency ∉ skipSymbols env)
    (hrun : processEntries env ds result st = Except.ok st')
    (hcur : env.isCurrency (env.getCurrencyFromSymbol sym) = true)
    (hder : env.isDerivedCurrency (env.getCurrencyFromSymbol sym) = true)
    (hskip : (skipSymbols env).contains e.1 = true) :
    List.lookup (env.DEFAULT_CURRENCY ++ d.currency) st'.response =
        some { rootResp with
          currency := d.currency
          marketPrice := some (p * d.factor)
          marketState := "open" } ∧
      (⟨ds, env.DEFAULT_CURRENCY ++ d.currency,
        { rootResp with
          currency := d.currency
          marketPrice := some (p * d.factor)
          marketState := "open" }, env.CACHE_QUOTES_TTL⟩ : CacheWrite) ∈
        st'.cacheWrites ∧
      sym ∉ filteredSymbols env ds b ids ∧
      entryStep env ds result st e = Except.ok st := by
  have hA : List.lookup (env.DEFAULT_CURRENCY ++ d.currency) st'.response =
        some (derivedQuote d rootResp p) ∧
      (⟨ds, env.DEFAULT_CURRENCY ++ d.currency, derivedQuote d rootResp p,
        env.CACHE_QUOTES_TTL⟩ : CacheWrite) ∈ st'.cacheWrites := by
    have hmem : (env.DEFAULT_CURRENCY ++ d.rootCurrency, rootResp) ∈ result :=
      mem_of_lookup_assoc result _ _ hlk
    obtain ⟨l₁, l₂, hsplit⟩ := List.append_of_mem hmem
    have hkeys' := hkeys
    rw [hsplit, List.map_append, List.map_cons, List.nodup_append] at hkeys'
    have hk2 : ∀ e' ∈ l₂, e'.1 ≠ env.DEFAULT_CURRENCY ++ d.rootCurrency := by
      intro e' he' heq
      have hx : env.DEFAULT_CURRENCY ++ d.rootCurrency ∈
          l₂.map Prod.fst := heq ▸ List.mem_map_of_mem Prod.fst he'
      exact (List.nodup_cons.mp hkeys'.2.1).1 hx
    have hrun' : List.foldlM (entryStep env ds result) st
        (l₁ ++ (env.DEFAULT_CURRENCY ++ d.rootCurrency, rootResp) :: l₂) =
          Except.ok st' := by
      rw [← hsplit]
      exact hrun
    obtain ⟨t1, t2, h1, h2, h3⟩ :=
      foldlM_except_split (entryStep env ds result) l₁ _ l₂ st st' hrun'
    have ht2 : List.lookup (env.DEFAULT_CURRENCY ++ d.currency)
          t2.response = some (derivedQuote d rootResp p) ∧
        (⟨ds, env.DEFAULT_CURRENCY ++ d.currency, derivedQuote d rootResp p,
          env.CACHE_QUOTES_TTL⟩ : CacheWrite) ∈ t2.cacheWrites := by
      rcases entryStep_ok_cases env ds result t1 _ t2 h2 with
        ⟨hsk, _⟩ | ⟨hsk, hsyn⟩
      · exact absurd (by simpa using hsk) hroot
      · exact synthesizeDerived_sets env ds result rootResp _ t2 d p rootResp
          hd hndc hlk hmp hsyn
    refine foldlM_except_inv
      (fun t => List.lookup (env.DEFAULT_CURRENCY ++ d.currency)
          t.response = some (derivedQuote d rootResp p) ∧
        (⟨ds, env.DEFAULT_CURRENCY ++ d.currency, derivedQuote d rootResp p,
          env.CACHE_QUOTES_TTL⟩ : CacheWrite) ∈ t.cacheWrites)
      _ _ ?_ h3 ht2
    intro t e' t' he' hstep ht
    rcases entryStep_ok_cases env ds result t e' t' hstep with
      ⟨_, h4⟩ | ⟨hsk, h4⟩
    · exact h4 ▸ ht
    · have hne : e'.1 ≠ env.DEFAULT_CURRENCY ++ d.currency := by
        intro heq
        have hx : (skipSymbols env).contains e'.1 = true := by
          rw [heq]
          simpa using mem_skipSymbols_of_derived env d hd
        rw [hx] at hsk
        exact Bool.noConfusion hsk
      constructor
      · have hkeyfine : ∀ d' ∈ env.DERIVED_CURRENCIES,
            e'.1 = env.DEFAULT_CURRENCY ++ d'.rootCurrency →
            env.DEFAULT_CURRENCY ++ d'.currency ≠
              env.DEFAULT_CURRENCY ++ d.currency := by
          intro d' hd' hsym heq
          have hcc : d'.currency = d.currency := string_append_left_cancel heq
          have hdd : d' = d := List.inj_on_of_nodup_map hndc hd' hd hcc
          exact hk2 e' he' (hdd ▸ hsym)
        have h5 := synthesizeDerived_lookup_fine env ds result e'.1 e'.2 _ t'
          (env.DEFAULT_CURRENCY ++ d.currency) hkeyfine h4
        rw [h5]
        show List.lookup (env.DEFAULT_CURRENCY ++ d.currency)
          (setKey t.response e'.1 e'.2) = _
        rw [lookup_setKey_ne _ _ _ _ (Ne.symm hne)]
        exact ht.1
      · exact synthesizeDerived_cacheWrites env ds result e'.1 e'.2 _ t' _ h4
          (List.mem_append_left _ ht.2)
  refine ⟨hA.1, hA.2, ?_, ?_⟩
  · intro hmem
    unfold filteredSymbols at hmem
    simp only [List.mem_map, List.mem_filter] at hmem
    obtain ⟨it, ⟨hits, hkeep⟩, hsymEq⟩ := hmem
    rw [hsymEq] at hkeep
    simp [keepSymbol, hcur, hder] at hkeep
  · unfold entryStep
    rw [if_pos hskip]

theorem C3_derived_synthesis_witness :
    List.lookup "USDGBp" exStC3.response =
        some ⟨"GBp", "ECB", some (2 * 100), "open"⟩ ∧
      (⟨"ECB", "USDGBp", ⟨"GBp", "ECB", some (2 * 100), "open"⟩, 3600⟩ :
        CacheWrite) ∈ exStC3.cacheWrites ∧
      "USDGBp" ∉ filteredSymbols exEnvBase "ECB" false [⟨"ECB", "USDGBp"⟩] ∧
      entryStep exEnvBase "ECB" exResultC3 ⟨[], [], [], []⟩
        ("USDUSX", exRespC3) = Except.ok ⟨[], [], [], []⟩ :=
  C3_derived_synthesis exEnvBase "ECB" exResultC3 ⟨[], [], [], []⟩ exStC3
    ⟨"GBp", 100, "GBP"⟩ exRespC3 2 false [⟨"ECB", "USDGBp"⟩] "USDGBp"
    ("USDUSX", exRespC3) (List.mem_cons_self _ _) (by decide) (by decide)
    rfl rfl (by decide) rfl rfl rfl rfl

theorem find?_unique_mem {α : Type} (l : List α) (p : α → Bool) (a : α)
    (ha : a ∈ l) (hpa : p a = true)
    (huniq : ∀ b ∈ l, p b = true → b = a) :
    l.find? p = some a := by
  induction l with
  | nil => exact absurd ha (List.not_mem_nil a)
  | cons b l ih =>
    by_cases hpb : p b = true
    · rw [List.find?_cons_of_pos _ hpb]
      rw [huniq b (List.mem_cons_self b l) hpb]
    · rw [List.find?_cons_of_neg _ hpb]
      rcases List.mem_cons.mp ha with rfl | ha'
      · exact absurd hpa hpb
      · exact ih ha' (fun b' hb' hp' =>
          huniq b' (List.mem_cons_of_mem _ hb') hp')

/-- **C4**: in `getHistoricalRaw`, a derived-currency pair requested with the
exchange-rate data source is removed from the request list and replaced by the
root-currency pair, identifiers are deduplicated (the fetched list has no
duplicates and holds exactly the swapped identifiers), and the result maps the
derived pair to the transformed root series, whose entry on each date is the
factor times the root price on that date, restricted to the dates where the
root series has a numeric price. -/
theorem C4_historical_derived (env : HistEnv)
    (ids : List AssetProfileIdentifier) (d : DerivedCurrency)
    (hnd : env.DERIVED_CURRENCIES.Nodup)
    (hd : d ∈ env.DERIVED_CURRENCIES)
    (hreq : (⟨env.exchangeRateDataSource,
      env.DEFAULT_CURRENCY ++ d.currency⟩ : AssetProfileIdentifier) ∈ ids)
    (hcur_d : ∀ d' ∈ env.DERIVED_CURRENCIES, d' ≠ d →
      env.DEFAULT_CURRENCY ++ d'.currency ≠
        env.DEFAULT_CURRENCY ++ d.currency)
    (hroot_ne : ∀ d' ∈ env.DERIVED_CURRENCIES,
      env.DEFAULT_CURRENCY ++ d'.rootCurrency ≠
        env.DEFAULT_CURRENCY ++ d.currency)
    (hcur_root : ∀ d' ∈ env.DERIVED_CURRENCIES,
      env.DEFAULT_CURRENCY ++ d'.currency ≠
        env.DEFAULT_CURRENCY ++ d.rootCurrency)
    (hroots : ∀ d' ∈ env.DERIVED_CURRENCIES, d' ≠ d →
      env.DEFAULT_CURRENCY ++ d'.rootCurrency ≠
        env.DEFAULT_CURRENCY ++ d.rootCurrency)
    (hids_root : ∀ it ∈ ids,
      it.symbol = env.DEFAULT_CURRENCY ++ d.rootCurrency →
      it = ⟨env.exchangeRateDataSource,
        env.DEFAULT_CURRENCY ++ d.rootCurrency⟩)
    (hch : env.canHandle env.exchangeRateDataSource
      (env.DEFAULT_CURRENCY ++ d.rootCurrency) = true)
    (hnu : env.DEFAULT_CURRENCY ++ d.rootCurrency ≠
      env.DEFAULT_CURRENCY ++ "USX")
    (hdates : (((((histAllData env
        (dedupKeepFirst (swapDerived env ids))).find?
        (fun e => e.1 == env.DEFAULT_CURRENCY ++ d.rootCurrency)).bind
        (fun e => e.2)).getD []).map Prod.fst).Nodup) :
    (dedupKeepFirst (swapDerived env ids)).Nodup ∧
    (∀ it, it ∈ dedupKeepFirst (swapDerived env ids) ↔
      it ∈ swapDerived env ids) ∧
    (∀ it ∈ dedupKeepFirst (swapDerived env ids),
      it.symbol ≠ env.DEFAULT_CURRENCY ++ d.currency) ∧
    ((⟨env.exchangeRateDataSource, env.DEFAULT_CURRENCY ++ d.rootCurrency⟩ :
      AssetProfileIdentifier) ∈ dedupKeepFirst (swapDerived env ids)) ∧
    List.lookup (env.DEFAULT_CURRENCY ++ d.currency)
        (getHistoricalRaw env ids) =
      some (some (transformHistoricalData
        (histAllData env (dedupKeepFirst (swapDerived env ids)))
        (env.DEFAULT_CURRENCY ++ d.rootCurrency) d.factor)) ∧
    (∀ date, List.lookup date (transformHistoricalData
        (histAllData env (dedupKeepFirst (swapDerived env ids)))
        (env.DEFAULT_CURRENCY ++ d.rootCurrency) d.factor) =
      (List.lookup date ((((histAllData env
        (dedupKeepFirst (swapDerived env ids))).find?
        (fun e => e.1 == env.DEFAULT_CURRENCY ++ d.rootCurrency)).bind
        (fun e => e.2)).getD [])).bind
        (fun en => en.marketPrice.map
          (fun p => (⟨some (d.factor * p)⟩ : HistEntry)))) := by
  obtain ⟨hswap1, hswap2, hswap3⟩ :=
    swapDerived_spec env ids d hnd hd hreq hcur_d hroot_ne hcur_root hroots
      hids_root
  refine ⟨nodup_dedupKeepFirst _, fun it => mem_dedupKeepFirst it _, ?_, ?_,
    ?_, ?_⟩
  · intro it hit
    exact hswap1 it ((mem_dedupKeepFirst it _).mp hit)
  · exact (mem_dedupKeepFirst _ _).mpr hswap2
  · unfold getHistoricalRaw
    refine histAssemble_lookup_derived env _ d ?_ ?_ ?_ ?_ ?_
    · refine find?_unique_mem _ _ d hd (by simp) ?_
      intro d' hd' hp'
      by_contra hne
      exact hroots d' hd' hne (by simpa using hp')
    · intro d' hd' he
      by_contra hne
      exact hcur_d d' hd' hne he
    · intro e he
      obtain ⟨it, hit, hsym⟩ := mem_histAllData_keys env _ e he
      exact hsym ▸ hswap1 it ((mem_dedupKeepFirst it _).mp hit)
    · exact Ne.symm (hcur_root d hd)
    · refine ⟨(env.DEFAULT_CURRENCY ++ d.rootCurrency,
        List.lookup (env.DEFAULT_CURRENCY ++ d.rootCurrency)
          (env.fetchHistorical env.exchangeRateDataSource
            (env.DEFAULT_CURRENCY ++ d.rootCurrency))), ?_, rfl⟩
      exact mem_histAllData_of env _
        ⟨env.exchangeRateDataSource, env.DEFAULT_CURRENCY ++ d.rootCurrency⟩
        ((mem_dedupKeepFirst _ _).mpr hswap2) hch hnu
  · intro date
    exact lookup_transform _ _ d.factor date hdates

theorem C4_historical_derived_witness :
    List.lookup "USDGBp"
        (getHistoricalRaw exHistEnvC4 [⟨"ECB", "USDGBp"⟩]) =
      some (some (transformHistoricalData
        (histAllData exHistEnvC4
          (dedupKeepFirst (swapDerived exHistEnvC4 [⟨"ECB", "USDGBp"⟩])))
        "USDGBP" 100)) :=
  (C4_historical_derived exHistEnvC4 [⟨"ECB", "USDGBp"⟩] ⟨"GBp", 100, "GBP"⟩
    (by decide) (List.mem_cons_self _ _) (List.mem_singleton.mpr rfl)
    (by
      intro d' hd' hne
      replace hd' : d' ∈ [(⟨"GBp", 100, "GBP"⟩ : DerivedCurrency)] := hd'
      rw [List.mem_singleton] at hd'
      subst hd'
      exact absurd rfl hne)
    (by
      intro d' hd'
      replace hd' : d' ∈ [(⟨"GBp", 100, "GBP"⟩ : DerivedCurrency)] := hd'
      rw [List.mem_singleton] at hd'
      subst hd'
      decide)
    (by
      intro d' hd'
      replace hd' : d' ∈ [(⟨"GBp", 100, "GBP"⟩ : DerivedCurrency)] := hd'
      rw [List.mem_singleton] at hd'
      subst hd'
      decide)
    (by
      intro d' hd' hne
      replace hd' : d' ∈ [(⟨"GBp", 100, "GBP"⟩ : DerivedCurrency)] := hd'
      rw [List.mem_singleton] at hd'
      subst hd'
      exact absurd rfl hne)
    (by
      intro it hit hsym
      replace hit : it ∈ [(⟨"ECB", "USDGBp"⟩ : AssetProfileIdentifier)] := hit
      rw [List.mem_singleton] at hit
      subst hit
      exact absurd hsym (by decide))
    rfl (by decide) (by decide)).2.2.2.2.1

theorem processEntries_write (env : QuoteEnv) (ds : String)
    (result : List (String × IDataProviderResponse)) (st0 st1 : QuoteState)
    (e : String × IDataProviderResponse) (he : e ∈ result)
    (hns : (skipSymbols env).contains e.1 = false)
    (h : processEntries env ds result st0 = Except.ok st1) :
    (⟨ds, e.1, e.2, env.CACHE_QUOTES_TTL⟩ : CacheWrite) ∈ st1.cacheWrites := by
  obtain ⟨l₁, l₂, hsplit⟩ := List.append_of_mem he
  have h' : List.foldlM (entryStep env ds result) st0 (l₁ ++ e :: l₂) =
      Except.ok st1 := by
    rw [← hsplit]
    exact h
  obtain ⟨t1, t2, h1, h2, h3⟩ :=
    foldlM_except_split (entryStep env ds result) l₁ e l₂ st0 st1 h'
  have ht2 : (⟨ds, e.1, e.2, env.CACHE_QUOTES_TTL⟩ : CacheWrite) ∈
      t2.cacheWrites := by
    rcases entryStep_ok_cases env ds result t1 e t2 h2 with
      ⟨hsk, _⟩ | ⟨_, hsyn⟩
    · rw [hsk] at hns
      exact Bool.noConfusion hns
    · exact synthesizeDerived_cacheWrites env ds result e.1 e.2 _ t2 _ hsyn
        (List.mem_append_right _ (List.mem_singleton.mpr rfl))
  refine foldlM_except_inv
    (fun t => (⟨ds, e.1, e.2, env.CACHE_QUOTES_TTL⟩ : CacheWrite) ∈
      t.cacheWrites) _ _ ?_ h3 ht2
  intro t e' t' he' hstep ht
  rcases entryStep_ok_cases env ds result t e' t' hstep with
    ⟨_, h4⟩ | ⟨_, h4⟩
  · exact h4 ▸ ht
  · exact synthesizeDerived_cacheWrites env ds result e'.1 e'.2 _ t' _ h4
      (List.mem_append_left _ ht)

/-- C1 counterexample: the derived pair `USDGBp` is requested with the cache
empty, misses the cache, and is pushed onto `itemsToFetch` — yet the run
completes with no upstream request and no response entry for it, because the
symbol filter of lines 474-489 drops derived-currency pair symbols before
chunking.  This refutes the claim that every requested item not served from
the cache is fetched upstream. -/
theorem C1_counterexample :
    cacheHit exEnvBase true ⟨"ECB", "USDGBp"⟩ = none ∧
    (⟨"ECB", "USDGBp"⟩ : AssetProfileIdentifier) ∈
      itemsToFetchOf exEnvBase true [⟨"ECB", "USDGBp"⟩] ∧
    getQuotes exEnvBase [⟨"ECB", "USDGBp"⟩] true false =
      Except.ok ⟨[], [], [], []⟩ := by
  refine ⟨rfl, ?_, rfl⟩
  have hev : itemsToFetchOf exEnvBase true [⟨"ECB", "USDGBp"⟩] =
      [⟨"ECB", "USDGBp"⟩] := rfl
  rw [hev]
  exact List.mem_singleton.mpr rfl

/-- **C1** (amended): with `useCache = true`, an item whose quote key holds a
parseable cache entry is answered from the cache and is not pushed onto
`itemsToFetch`; an item missing the cache is pushed onto `itemsToFetch`, and
is part of some upstream request of its data source provided its symbol
additionally survives the derived-currency/premium symbol filter (the original
claim omits that filter, see the counterexample); every non-skipped entry of a
provider result is written back to the cache under its quote key with the
configured `CACHE_QUOTES_TTL`. -/
theorem C1_cache_or_fetch (env : QuoteEnv)
    (items : List AssetProfileIdentifier) (userIsBasic : Bool)
    (it : AssetProfileIdentifier) (r : IDataProviderResponse)
    (ds : String) (result : List (String × IDataProviderResponse))
    (e : String × IDataProviderResponse) (st st0 st1 : QuoteState)
    (hmem : it ∈ items)
    (hcoh : ∀ ds' syms e', e' ∈ env.fetchQuotes ds' syms → e'.1 ∈ syms)
    (hder : ∀ d ∈ env.DERIVED_CURRENCIES,
      env.DEFAULT_CURRENCY ++ d.currency ≠ it.symbol)
    (hmax : maxFor env it.dataSource ≠ 0)
    (hrun : getQuotes env items true userIsBasic = Except.ok st)
    (he : e ∈ result)
    (hns : (skipSymbols env).contains e.1 = false)
    (hpe : processEntries env ds result st0 = Except.ok st1) :
    ((∀ x ∈ items, x.symbol = it.symbol → cacheHit env true x = some r) →
      List.lookup it.symbol st.response = some r ∧
      it ∉ itemsToFetchOf env true items) ∧
    (cacheHit env true it = none → it ∈ itemsToFetchOf env true items) ∧
    (it ∈ itemsToFetchOf env true items →
      keepSymbol env it.dataSource userIsBasic it.symbol = true →
      ∃ c, (it.dataSource, c) ∈ st.fetchCalls ∧ it.symbol ∈ c) ∧
    (⟨ds, e.1, e.2, env.CACHE_QUOTES_TTL⟩ : CacheWrite) ∈
      st1.cacheWrites := by
  refine ⟨?_, ?_, ?_, processEntries_write env ds result st0 st1 e he hns hpe⟩
  · intro hall
    have hcall : ∀ g ∈ groupByDataSource (itemsToFetchOf env true items),
        ∀ c ∈ chunkList (maxFor env g.1)
          (filteredSymbols env g.1 userIsBasic g.2),
          ∀ e' ∈ env.fetchQuotes g.1 c, e'.1 ≠ it.symbol := by
      intro g hg c hc e' he' heq
      have hsym : it.symbol ∈ c := heq ▸ hcoh g.1 c e' he'
      have hF : it.symbol ∈ filteredSymbols env g.1 userIsBasic g.2 :=
        chunkList_mem_subset _ _ c hc _ hsym
      obtain ⟨x, hx, hxsym, _⟩ := (mem_filteredSymbols env g.1 userIsBasic
        g.2 it.symbol).mp hF
      have hx2 : x ∈ itemsToFetchOf env true items := by
        have hg2 := groupByDataSource_snd _ g hg
        rw [hg2] at hx
        exact List.mem_of_mem_filter hx
      have hx3 := (itemsToFetchOf_mem env true items x).mp hx2
      have hhit := hall x hx3.1 hxsym
      rw [hhit] at hx3
      exact Bool.noConfusion hx3.2
    constructor
    · have hlk := getQuotes_lookup env items true userIsBasic it.symbol hder
        hcall st hrun
      rw [hlk]
      exact cachePhase_fst_hit env true items it.symbol r _ hall
        ⟨it, hmem, rfl⟩
    · intro hin
      have hx3 := (itemsToFetchOf_mem env true items it).mp hin
      rw [hall it hmem rfl] at hx3
      exact Bool.noConfusion hx3.2
  · intro hnone
    refine (itemsToFetchOf_mem env true items it).mpr ⟨hmem, ?_⟩
    rw [hnone]
    rfl
  · intro hin hkeep
    have hds : it.dataSource ∈ dedupKeepFirst
        ((itemsToFetchOf env true items).map (fun x => x.dataSource)) :=
      (mem_dedupKeepFirst _ _).mpr
        (List.mem_map_of_mem (fun x => x.dataSource) hin)
    have hg : (it.dataSource,
        (itemsToFetchOf env true items).filter
          (fun x => x.dataSource == it.dataSource)) ∈
        groupByDataSource (itemsToFetchOf env true items) := by
      unfold groupByDataSource
      exact List.mem_map_of_mem _ hds
    have hsymF : it.symbol ∈ filteredSymbols env it.dataSource userIsBasic
        ((itemsToFetchOf env true items).filter
          (fun x => x.dataSource == it.dataSource)) := by
      rw [mem_filteredSymbols]
      exact ⟨it, List.mem_filter.mpr ⟨hin, by simp⟩, rfl, hkeep⟩
    have hflat : it.symbol ∈ (chunkList (maxFor env it.dataSource)
        (filteredSymbols env it.dataSource userIsBasic
          ((itemsToFetchOf env true items).filter
            (fun x => x.dataSource == it.dataSource)))).flatten := by
      rw [chunkList_flatten _ hmax]
      exact hsymF
    obtain ⟨c, hc, hcs⟩ := List.mem_flatten.mp hflat
    refine ⟨c, ?_, hcs⟩
    rw [getQuotes_fetchCalls env items true userIsBasic st hrun]
    unfold plannedCalls
    rw [List.mem_flatMap]
    exact ⟨_, hg, List.mem_map_of_mem _ hc⟩

theorem C1_cache_or_fetch_witness :
    (⟨"Y", "AAPL"⟩ : AssetProfileIdentifier) ∈
        itemsToFetchOf exEnvBase true [⟨"Y", "AAPL"⟩] ∧
      (∃ c, ("Y", c) ∈ exStC1.fetchCalls ∧ "AAPL" ∈ c) ∧
      (⟨"Y", "AAPL", exRespC1, 3600⟩ : CacheWrite) ∈ exStC1e.cacheWrites := by
  have h := C1_cache_or_fetch exEnvBase [⟨"Y", "AAPL"⟩] false ⟨"Y", "AAPL"⟩
    (usxResponse exEnvBase) "Y" [("AAPL", exRespC1)] ("AAPL", exRespC1)
    exStC1 ⟨[], [], [], []⟩ exStC1e
    (List.mem_singleton.mpr rfl)
    (by
      intro ds' syms e' he'
      simp only [exEnvBase, List.mem_map] at he'
      obtain ⟨x, hx, rfl⟩ := he'
      exact hx)
    (by
      intro d hd
      replace hd : d ∈ [(⟨"GBp", 100, "GBP"⟩ : DerivedCurrency)] := hd
      rw [List.mem_singleton] at hd
      subst hd
      decide)
    (by decide) rfl (List.mem_singleton.mpr rfl) rfl rfl
  exact ⟨h.2.1 rfl, h.2.2.1 (h.2.1 rfl) rfl, h.2.2.2⟩
